import Mathlib

/-!
Verification of the `signature_tool` repository (files `generator.py`,
`processor.py`).

Modelling conventions (shallow embedding):

* A file's textual content is represented by the list of its lines, i.e. the
  result of Python's `content.split('\n')`.  This representation is a
  bijection between strings and nonempty lists of newline-free strings;
  `""` corresponds to `[""]`.  String concatenation `sigStr ++ rest`, where
  `sigStr` is the `'\n'`-join of a line list ending in `""`, corresponds to
  `sigLines.dropLast ++ restLines` on line lists.
* Python's substring test `needle in hay` is modelled by `occursIn` on the
  character lists of the strings.
* `datetime.now().strftime("%Y-%m-%d")` is not pure; the current date is
  passed to the model as an explicit `today : String` argument, exactly
  where the source lets the date default.
* File-system state relevant to one file (existence, readability,
  writability, suffix, content) is a `FileState` record; directory trees are
  the inductive `FTree`.
-/

namespace SignatureTool

/-! ### Character-level substring machinery (model of Python's `in` on strings) -/

/-- `leadsWith n h` is true when the character list `n` is an initial
segment of `h`. -/
def leadsWith : List Char → List Char → Bool
  | [], _ => true
  | _ :: _, [] => false
  | a :: n, b :: h => a == b && leadsWith n h

/-- `occursIn n h` is true when `n` occurs contiguously inside `h`
(Python's `n in h` for strings). -/
def occursIn (n : List Char) : List Char → Bool
  | [] => n.isEmpty
  | c :: h => leadsWith n (c :: h) || occursIn n h

/-- Substring test on strings, the model of Python's `needle in hay`. -/
def containsSubstr (needle hay : String) : Bool :=
  occursIn needle.data hay.data

theorem leadsWith_subset {n h : List Char} (hl : leadsWith n h = true) :
    ∀ a ∈ n, a ∈ h := by
  induction n generalizing h with
  | nil => intro a ha; cases ha
  | cons x n ih =>
    cases h with
    | nil => simp [leadsWith] at hl
    | cons b h =>
      simp only [leadsWith, Bool.and_eq_true, beq_iff_eq] at hl
      intro a ha
      rcases List.mem_cons.mp ha with rfl | ha
      · exact hl.1 ▸ List.mem_cons_self _ _
      · exact List.mem_cons_of_mem _ (ih hl.2 a ha)

theorem occursIn_subset {n h : List Char} (ho : occursIn n h = true) :
    ∀ a ∈ n, a ∈ h := by
  induction h with
  | nil =>
    simp only [occursIn, List.isEmpty_iff] at ho
    subst ho; intro a ha; cases ha
  | cons c h ih =>
    simp only [occursIn, Bool.or_eq_true] at ho
    rcases ho with ho | ho
    · exact leadsWith_subset ho
    · exact fun a ha => List.mem_cons_of_mem _ (ih ho a ha)

/-- If some character of `n` is missing from `h`, then `n` is not a
substring of `h`. -/
theorem occursIn_eq_false_of_not_mem {n h : List Char} {a : Char}
    (han : a ∈ n) (hah : a ∉ h) : occursIn n h = false := by
  cases ho : occursIn n h with
  | false => rfl
  | true => exact absurd (occursIn_subset ho a han) hah

theorem leadsWith_refl (n : List Char) : leadsWith n n = true := by
  induction n with
  | nil => rfl
  | cons a n ih => simp [leadsWith, ih]

/-- A list occurs as a substring at the very end of `p ++ n`. -/
theorem occursIn_append_self (p n : List Char) : occursIn n (p ++ n) = true := by
  induction p with
  | nil =>
    cases n with
    | nil => rfl
    | cons c t => simp [occursIn, leadsWith_refl]
  | cons b p ih => simp [occursIn, ih]

/-- Suffix form of `occursIn_append_self` for strings: the model of
"`email` occurs in `"Email: " ++ email`". -/
theorem containsSubstr_append_self (p s : String) :
    containsSubstr s (p ++ s) = true := by
  simpa [containsSubstr, String.data_append] using occursIn_append_self p.data s.data

/-- `hasAtChar s` : the character `'@'` occurs in `s`. -/
def hasAtChar (s : String) : Bool := s.data.any (fun c => c == '@')

/-- `noAtChar s` : the character `'@'` does not occur in `s`. -/
def noAtChar (s : String) : Bool := s.data.all (fun c => !(c == '@'))

theorem not_mem_of_noAtChar {s : String} (h : noAtChar s = true) : '@' ∉ s.data := by
  intro hm
  have := List.all_eq_true.mp h '@' hm
  simp at this

/-- An `'@'`-containing needle never occurs in an `'@'`-free haystack. -/
theorem containsSubstr_eq_false_of_at {needle hay : String}
    (hn : hasAtChar needle = true) (hh : '@' ∉ hay.data) :
    containsSubstr needle hay = false := by
  rcases List.any_eq_true.mp hn with ⟨a, ha, hb⟩
  have : a = '@' := by simpa using hb
  subst this
  exact occursIn_eq_false_of_not_mem ha hh

/-! ### Signature generator (`generator.py`) -/

/-- The configuration dictionary: required keys `author`, `email`;
optional keys `title`, `website`, `upwork` (`config.py`). -/
structure Config where
  author : String
  email : String
  title : Option String := none
  website : Option String := none
  upwork : Option String := none

/-- `COMMENT_STYLES` from `generator.py`: extension → comment style,
in source order. -/
def COMMENT_STYLES : List (String × String) :=
  [ (".py", "hash"), (".rb", "hash"), (".sh", "hash"), (".bash", "hash"),
    (".yaml", "hash"), (".yml", "hash"), (".r", "hash"), (".perl", "hash"),
    (".pl", "hash"),
    (".js", "slash"), (".ts", "slash"), (".jsx", "slash"), (".tsx", "slash"),
    (".java", "slash"), (".cpp", "slash"), (".c", "slash"), (".h", "slash"),
    (".hpp", "slash"), (".go", "slash"), (".rs", "slash"), (".swift", "slash"),
    (".kt", "slash"), (".scala", "slash"), (".php", "slash"),
    (".html", "html"), (".xml", "html"), (".md", "html"), (".svg", "html"),
    (".css", "css"), (".scss", "css"), (".sass", "css"), (".less", "css") ]

/-- Dictionary lookup `COMMENT_STYLES[ext]` / membership test. -/
def lookupStyle (ext : String) : Option String :=
  (COMMENT_STYLES.find? (fun p => p.1 == ext)).map Prod.snd

/-- `is_supported_file` from `generator.py`: `file_extension in COMMENT_STYLES`. -/
def is_supported_file (ext : String) : Bool :=
  (lookupStyle ext).isSome

/-- `SignatureGenerator.separator`: `"=" * 80` (default width 80). -/
def separator : String := String.mk (List.replicate 80 '=')

/-- Helper for an optional attribution line (`if 'title' in self.config: ...`). -/
def optLine (label : String) : Option String → List String
  | some v => [label ++ v]
  | none => []

/-- The attribution lines built by `SignatureGenerator.generate` before the
`Email:` line: `Author:` (required), `Title:` and `Website:` (optional). -/
def infoPre (cfg : Config) : List String :=
  ["Author: " ++ cfg.author] ++ optLine "Title: " cfg.title
    ++ optLine "Website: " cfg.website

/-- The attribution lines after the `Email:` line: `Upwork:` (optional) and
`Created:` (always last). -/
def infoPost (cfg : Config) (date : String) : List String :=
  optLine "Upwork: " cfg.upwork ++ ["Created: " ++ date]

/-- The full ordered list of attribution lines of
`SignatureGenerator.generate`. -/
def signatureInfoLines (cfg : Config) (date : String) : List String :=
  infoPre cfg ++ ["Email: " ++ cfg.email] ++ infoPost cfg date

/-- `_format_hash`: every line prefixed by `"# "`, separator lines around,
trailing empty string (the "empty line after signature"). -/
def format_hash (sep : String) (ls : List String) : List String :=
  ("# " ++ sep) :: (ls.map (fun l => "# " ++ l) ++ ["# " ++ sep, ""])

/-- `_format_slash`: like `_format_hash` with `"// "`. -/
def format_slash (sep : String) (ls : List String) : List String :=
  ("// " ++ sep) :: (ls.map (fun l => "// " ++ l) ++ ["// " ++ sep, ""])

/-- `_format_html`: `<!--`, separator, raw lines, separator, `-->`,
trailing empty string. -/
def format_html (sep : String) (ls : List String) : List String :=
  "<!--" :: sep :: (ls ++ [sep, "-->", ""])

/-- `_format_css`: same as `_format_html` with `/*` and `*/`. -/
def format_css (sep : String) (ls : List String) : List String :=
  "/*" :: sep :: (ls ++ [sep, "*/", ""])

/-- Errors raised by the generator (`ValueError` in the source). -/
inductive GenError where
  | unsupportedExtension (ext : String)
  | unknownStyle (style : String)
deriving DecidableEq

/-- `SignatureGenerator.generate` / `generate_signature`: returns the
signature block as its list of lines (the `result` list that the source
joins with `'\n'`), or the `ValueError` it raises.  `date` is the
`creation_date` argument after defaulting to today. -/
def generate (cfg : Config) (ext : String) (date : String) :
    Except GenError (List String) :=
  match lookupStyle ext with
  | none => .error (.unsupportedExtension ext)
  | some style =>
    let info := signatureInfoLines cfg date
    if style == "hash" then .ok (format_hash separator info)
    else if style == "slash" then .ok (format_slash separator info)
    else if style == "html" then .ok (format_html separator info)
    else if style == "css" then .ok (format_css separator info)
    else .error (.unknownStyle style)

/-- Total accessor for the generated signature lines (empty on error);
used only to state theorems whose hypotheses entail success. -/
def sigList (cfg : Config) (ext : String) (date : String) : List String :=
  match generate cfg ext date with
  | .ok l => l
  | .error _ => []

/-! ### File processor (`processor.py`) -/

/-- `FileProcessor.has_signature`: the configured email occurs (as a
substring) in one of the first 20 lines of the content. -/
def has_signature (email : String) (lines : List String) : Bool :=
  (lines.take 20).any (fun l => containsSubstr email l)

/-- Index of the first element satisfying `p` (model of Python's
`for i, line in enumerate(...)` search with `break`). -/
def firstIdxWhere (p : String → Bool) : List String → Option Nat
  | [] => none
  | l :: ls => if p l then some 0 else (firstIdxWhere p ls).map (· + 1)

/-- The end-marker test of `_remove_old_signature`:
`'=====' in line or '-->' in line or '*/' in line`. -/
def isMarkerLine (l : String) : Bool :=
  containsSubstr "=====" l || containsSubstr "-->" l || containsSubstr "*/" l

/-- Python's `not line.strip()`: the line is empty or whitespace-only. -/
def blankLine (l : String) : Bool := l.data.all (fun c => c.isWhitespace)

/-- The `while signature_end < len(lines) and not lines[signature_end].strip()`
loop: skip leading blank lines. -/
def dropBlankLines : List String → List String
  | [] => []
  | l :: ls => if blankLine l then dropBlankLines ls else l :: ls

/-- `FileProcessor._remove_old_signature` on the line-list representation.
The outer loop finds the first of the first 20 lines containing the email;
the inner loop scans `range(i, min(i + 5, len(lines)))`, i.e. the email
line and up to 4 following lines (`(lines.drop i).take 5`), for a marker;
`signature_end` is the line after the first marker, or 0 when either search
fails.  Python then joins `lines[signature_end:]` after skipping blanks; an
empty remainder joins to `""`, whose line list is `[""]`. -/
def remove_old_signature (email : String) (lines : List String) : List String :=
  let signature_end :=
    match firstIdxWhere (fun l => containsSubstr email l) (lines.take 20) with
    | none => 0
    | some i =>
      match firstIdxWhere isMarkerLine ((lines.drop i).take 5) with
      | none => 0
      | some k => i + k + 1
  let rest := dropBlankLines (lines.drop signature_end)
  if rest.isEmpty then [""] else rest

/-- `content.startswith('#!')`: on line lists, the first line starts with
`#!` (neither character is a newline, so the two tests agree). -/
def startsShebang (lines : List String) : Bool :=
  leadsWith "#!".data (lines.headD "").data

/-- The `rest` of `content.split('\n', 1)`: everything after the first
line, which is the empty string (line list `[""]`) when the content has a
single line. -/
def shebangRest (lines : List String) : List String :=
  if lines.length ≤ 1 then [""] else lines.tail

/-- The state of one path on disk, as observed by `process_file`:
`isFile` is `file_path.is_file()`, `readable` is false when the
`open(..., 'r')`/decode step raises, `writable` is false when
`open(..., 'w')` raises `PermissionError`, `suffix` is
`file_path.suffix`, and `lines` is the split content. -/
structure FileState where
  isFile : Bool
  readable : Bool
  writable : Bool
  suffix : String
  lines : List String
deriving DecidableEq

/-- The new content computed by `process_file` once a signature block
`sig` has been generated: the shebang branch keeps the first line, adds a
blank line (`shebang + '\n' + signature + rest`), and strips an old
signature from the remainder under `force`; the plain branch prepends the
block.  `sig.dropLast ++ rest` is the line-list form of the string
concatenation, since `sig` ends with the empty string. -/
def newContent (cfg : Config) (force : Bool) (sig : List String)
    (lines : List String) : List String :=
  if startsShebang lines then
    let rest := shebangRest lines
    let rest :=
      if force && has_signature cfg.email rest then
        remove_old_signature cfg.email rest
      else rest
    [lines.headD "", ""] ++ sig.dropLast ++ rest
  else
    let content :=
      if force && has_signature cfg.email lines then
        remove_old_signature cfg.email lines
      else lines
    sig.dropLast ++ content

/-- `FileProcessor.process_file`.  Returns the `True`/`False` result
together with the state of the file after the call (content replaced
exactly when the source writes it back).  The decision sequence mirrors
the source: unsupported suffix, not a file, unreadable, already signed
without `force`, generation error, shebang handling, and the final write
(skipped under `dry_run`; a write-permission failure returns `False` and
leaves the file unchanged because `open(path, 'w')` itself raises). -/
def process_file (cfg : Config) (dry_run force : Bool) (today : String)
    (f : FileState) : Bool × FileState :=
  if !(is_supported_file f.suffix) then (false, f)
  else if !f.isFile then (false, f)
  else if !f.readable then (false, f)
  else if has_signature cfg.email f.lines && !force then (false, f)
  else
    match generate cfg f.suffix today with
    | .error _ => (false, f)
    | .ok sig =>
      let newLines := newContent cfg force sig f.lines
      if dry_run then (true, f)
      else if !f.writable then (false, f)
      else (true, { f with lines := newLines })

/-! ### Directory walk (`processor.py`) -/

/-- `SKIP_DIRS` from `processor.py`. -/
def SKIP_DIRS : List String :=
  [ ".git", ".venv", "venv", "env", "__pycache__", "node_modules",
    ".pytest_cache", ".mypy_cache", "dist", "build", ".egg-info",
    ".tox", "htmlcov", ".coverage", ".idea", ".vscode" ]

/-- `SKIP_FILES` from `processor.py`. -/
def SKIP_FILES : List String :=
  [ ".gitignore", ".dockerignore", "LICENSE", "CHANGELOG",
    "requirements.txt", "package-lock.json", "yarn.lock", "poetry.lock" ]

/-- The statistics dictionary `{'processed': ..., 'skipped': ..., 'files': ...}`. -/
structure Stats where
  processed : Nat
  skipped : Nat
  files : List String
deriving DecidableEq

/-- Pointwise accumulation of two statistics records. -/
def Stats.add (a b : Stats) : Stats :=
  ⟨a.processed + b.processed, a.skipped + b.skipped, a.files ++ b.files⟩

/-- A directory tree: leaves are files (with their state), inner nodes
are directories with a named list of children. -/
inductive FTree where
  | file (st : FileState)
  | dir (children : List (String × FTree))

/-- `Path(root) / filename`. -/
def joinPath (root name : String) : String := root ++ "/" ++ name

/-- The recursive walk of `FileProcessor.process_directory`
(`files_only = None` path): `os.walk` with `dirs` filtered by `SKIP_DIRS`,
filenames filtered by `SKIP_FILES`, every remaining file handed to
`process_file` and tallied.  Children are visited in list order (`os.walk`
visits each directory's files before its subdirectories; this changes at
most the order of the `files` list, not the counts or its membership).
Returns the statistics together with the tree after all writes. -/
def processEntries (cfg : Config) (dry_run force : Bool) (today : String) :
    String → List (String × FTree) → Stats × List (String × FTree)
  | _, [] => (⟨0, 0, []⟩, [])
  | root, (n, FTree.file st) :: rest =>
    if SKIP_FILES.contains n then
      let r := processEntries cfg dry_run force today root rest
      (r.1, (n, FTree.file st) :: r.2)
    else
      let p := process_file cfg dry_run force today st
      let here : Stats := if p.1 then ⟨1, 0, [joinPath root n]⟩ else ⟨0, 1, []⟩
      let r := processEntries cfg dry_run force today root rest
      (here.add r.1, (n, FTree.file p.2) :: r.2)
  | root, (n, FTree.dir cs) :: rest =>
    if SKIP_DIRS.contains n then
      let r := processEntries cfg dry_run force today root rest
      (r.1, (n, FTree.dir cs) :: r.2)
    else
      let rsub := processEntries cfg dry_run force today (joinPath root n) cs
      let r := processEntries cfg dry_run force today root rest
      (rsub.1.add r.1, (n, FTree.dir rsub.2) :: r.2)

/-- The candidate files of the walk: every file reachable without
passing through a `SKIP_DIRS` directory and whose name is not in
`SKIP_FILES`, with its path. -/
def walkCandidates : String → List (String × FTree) → List (String × FileState)
  | _, [] => []
  | root, (n, FTree.file st) :: rest =>
    if SKIP_FILES.contains n then walkCandidates root rest
    else (joinPath root n, st) :: walkCandidates root rest
  | root, (n, FTree.dir cs) :: rest =>
    if SKIP_DIRS.contains n then walkCandidates root rest
    else walkCandidates (joinPath root n) cs ++ walkCandidates root rest

/-- Node lookup along a path of names (first match, as `os` resolves a
unique name per directory). -/
def lookupTree : List String → FTree → Option FTree
  | [], t => some t
  | n :: p, FTree.dir cs =>
    match cs.find? (fun e => e.1 == n) with
    | some e => lookupTree p e.2
    | none => none
  | _ :: _, FTree.file _ => none

/-- `underSkip p t` : the path `p` passes through an entry that the walk
excludes — a directory whose name is in `SKIP_DIRS` or a file whose name
is in `SKIP_FILES`. -/
def underSkip : List String → FTree → Bool
  | [], _ => false
  | n :: p, FTree.dir cs =>
    match cs.find? (fun e => e.1 == n) with
    | some e =>
      (match e.2 with
        | FTree.file _ => SKIP_FILES.contains n
        | FTree.dir _ => SKIP_DIRS.contains n) || underSkip p e.2
    | none => false
  | _ :: _, FTree.file _ => false

/-- The root argument of `process_files`: a file, a directory, or a path
that resolves to neither. -/
inductive RootPath where
  | file (st : FileState)
  | dir (children : List (String × FTree))
  | notFound

/-- The result dictionary of `process_files`, with the optional
`'error': 'Path not found'` annotation. -/
structure RunResult where
  processed : Nat
  skipped : Nat
  files : List String
  error : Option String
deriving DecidableEq

/-- `process_files` from `processor.py`: single file, directory, or the
zero-stats not-found result.  Total — the source raises no exception on
the not-found branch. -/
def process_files (cfg : Config) (dry_run force : Bool) (today : String)
    (rootName : String) : RootPath → RunResult
  | .file st =>
    let r := process_file cfg dry_run force today st
    if r.1 then ⟨1, 0, [rootName], none⟩ else ⟨0, 1, [], none⟩
  | .dir cs =>
    let r := processEntries cfg dry_run force today rootName cs
    ⟨r.1.processed, r.1.skipped, r.1.files, none⟩
  | .notFound => ⟨0, 0, [], some "Path not found"⟩

/-! ### Spec-side definitions (for refinement comparison) and witness data -/

/-- Modelled from the spec, step 9 of §4.2 (amended): scan the first 20
lines for the first line containing the configured email, counting with
explicit fuel. -/
def scanForEmail (email : String) : Nat → Nat → List String → Option Nat
  | _, _, [] => none
  | 0, _, _ => none
  | fuel + 1, idx, l :: ls =>
    if containsSubstr email l then some idx
    else scanForEmail email fuel (idx + 1) ls

/-- Modelled from the spec, step 9 of §4.2 (amended): from the email line,
scan a window of 5 lines (the email line and up to 4 more) for a closing
marker. -/
def scanForMarker : Nat → Nat → List String → Option Nat
  | _, _, [] => none
  | 0, _, _ => none
  | fuel + 1, idx, l :: ls =>
    if isMarkerLine l then some idx
    else scanForMarker fuel (idx + 1) ls

/-- Modelled from the spec, step 9 of §4.2 (amended): the line after the
matched marker is the removal boundary; when either scan fails the
boundary is the start; blank-line skipping applies unconditionally after
the boundary; an empty remainder denotes the empty file (`[""]`). -/
def removeOldSignatureSpec (email : String) (lines : List String) : List String :=
  let boundary :=
    match scanForEmail email 20 0 lines with
    | none => 0
    | some i =>
      match scanForMarker 5 i (lines.drop i) with
      | none => 0
      | some j => j + 1
  let rest := dropBlankLines (lines.drop boundary)
  if rest.isEmpty then [""] else rest

/-- The per-entry effect of the walk, used to characterise the output
tree of `processEntries`. -/
def transformEntry (cfg : Config) (dry_run force : Bool) (today : String)
    (root : String) : String × FTree → FTree
  | (n, FTree.file st) =>
    if SKIP_FILES.contains n then FTree.file st
    else FTree.file (process_file cfg dry_run force today st).2
  | (n, FTree.dir cs) =>
    if SKIP_DIRS.contains n then FTree.dir cs
    else FTree.dir (processEntries cfg dry_run force today (joinPath root n) cs).2

/-- `markerCharFree s` : none of the characters `'='`, `'>'`, `'*'`
occurs in `s`, so no end-marker can occur in a line built from `s` and
marker-character-free constant text. -/
def markerCharFree (s : String) : Bool :=
  s.data.all (fun c => !(c == '=') && !(c == '>') && !(c == '*'))

/-- Well-formedness of an optional field value. -/
def optNoAt : Option String → Bool
  | none => true
  | some s => noAtChar s

/-- Marker-freedom of an optional field value. -/
def optMarkerFree : Option String → Bool
  | none => true
  | some s => markerCharFree s

/-- The common shape of the two line-prefixed signature blocks:
`format_hash separator ls = prefixedSig "# " ...` and
`format_slash separator ls = prefixedSig "// " ...` (definitionally). -/
def prefixedSig (cp : String) (cfg : Config) (date : String) : List String :=
  (cp ++ separator) ::
    ((signatureInfoLines cfg date).map (fun l => cp ++ l) ++ [cp ++ separator, ""])

/-- A minimal concrete configuration used by witnesses. -/
def cfgA : Config := ⟨"A", "a@b.c", none, none, none⟩

/-- A configuration whose author field contains the email string. -/
def cfgEmailInAuthor : Config := ⟨"a@b.c", "a@b.c", none, none, none⟩

/-- A supported, readable file that cannot be written. -/
def fileUnwritable : FileState := ⟨true, true, false, ".py", ["print(1)"]⟩

/-- An unsupported-extension file. -/
def fileBin : FileState := ⟨true, true, true, ".bin", ["x"]⟩

/-- A file whose suffix differs from a supported one only by case. -/
def filePY : FileState := ⟨true, true, true, ".PY", ["print(1)"]⟩

/-- A plain supported file. -/
def filePlain : FileState := ⟨true, true, true, ".py", ["print(1)"]⟩

/-- A supported file with a shebang first line. -/
def fileShebang : FileState :=
  ⟨true, true, true, ".py", ["#!/usr/bin/env python3", "print(1)"]⟩

/-- A supported HTML file (block comment style). -/
def fileHtml : FileState := ⟨true, true, true, ".html", ["<p>hi</p>"]⟩

/-- A directory tree with two candidate files, a skip-name file and a
`.git` subdirectory. -/
def treeDemo : List (String × FTree) :=
  [ ("a.py", FTree.file filePlain),
    ("b.js", FTree.file ⟨true, true, true, ".js", ["let x = 1;"]⟩),
    ("LICENSE", FTree.file ⟨true, true, true, "", ["MIT"]⟩),
    (".git", FTree.dir [("config", FTree.file ⟨true, true, true, "", ["[core]"]⟩)]) ]

/-! ### Step lemmas for `process_file` and `generate` -/

theorem process_file_skip_unsupported (cfg : Config) (dry_run force : Bool)
    (today : String) (f : FileState) (h : is_supported_file f.suffix = false) :
    process_file cfg dry_run force today f = (false, f) := by
  simp [process_file, h]

theorem lookupStyle_cases {ext s : String} (h : lookupStyle ext = some s) :
    s = "hash" ∨ s = "slash" ∨ s = "html" ∨ s = "css" := by
  unfold lookupStyle at h
  cases hf : COMMENT_STYLES.find? (fun p => p.1 == ext) with
  | none => rw [hf] at h; cases h
  | some p =>
    rw [hf] at h
    have hm : p ∈ COMMENT_STYLES := List.mem_of_find?_eq_some hf
    have hall : COMMENT_STYLES.all
        (fun q => q.2 == "hash" || q.2 == "slash" || q.2 == "html" || q.2 == "css")
        = true := by decide
    have hp := List.all_eq_true.mp hall p hm
    have hps : p.2 = s := by simpa using h
    rw [← hps]
    simpa [Bool.or_eq_true, or_assoc] using hp

theorem generate_of_hash {cfg : Config} {ext date : String}
    (h : lookupStyle ext = some "hash") :
    generate cfg ext date = .ok (format_hash separator (signatureInfoLines cfg date)) := by
  simp [generate, h]

theorem generate_of_slash {cfg : Config} {ext date : String}
    (h : lookupStyle ext = some "slash") :
    generate cfg ext date = .ok (format_slash separator (signatureInfoLines cfg date)) := by
  simp [generate, h]

theorem generate_of_html {cfg : Config} {ext date : String}
    (h : lookupStyle ext = some "html") :
    generate cfg ext date = .ok (format_html separator (signatureInfoLines cfg date)) := by
  simp [generate, h]

theorem generate_of_css {cfg : Config} {ext date : String}
    (h : lookupStyle ext = some "css") :
    generate cfg ext date = .ok (format_css separator (signatureInfoLines cfg date)) := by
  simp [generate, h]

theorem generate_ok_of_supported (cfg : Config) {ext : String} (date : String)
    (h : is_supported_file ext = true) :
    ∃ sig, generate cfg ext date = .ok sig := by
  obtain ⟨s, hs⟩ := Option.isSome_iff_exists.mp h
  rcases lookupStyle_cases hs with rfl | rfl | rfl | rfl
  · exact ⟨_, generate_of_hash hs⟩
  · exact ⟨_, generate_of_slash hs⟩
  · exact ⟨_, generate_of_html hs⟩
  · exact ⟨_, generate_of_css hs⟩

theorem process_file_run (cfg : Config) (dry_run force : Bool) (today : String)
    (f : FileState) (sig : List String)
    (hs : is_supported_file f.suffix = true) (hf : f.isFile = true)
    (hr : f.readable = true)
    (hsig : (has_signature cfg.email f.lines && !force) = false)
    (hg : generate cfg f.suffix today = .ok sig) :
    process_file cfg dry_run force today f =
      (if dry_run then (true, f)
       else if !f.writable then (false, f)
       else (true, { f with lines := newContent cfg force sig f.lines })) := by
  simp [process_file, hs, hf, hr, hsig, hg]

/-! ### Claim C9 -/

/-- Claim C9: if the root path resolves to neither a file nor a directory,
`process_files` returns a zero-stats result annotated with the
`Path not found` condition; the model is a total function, mirroring that
the source raises no exception on this branch. -/
theorem path_not_found_zero_stats (cfg : Config) (dry_run force : Bool)
    (today rootName : String) :
    process_files cfg dry_run force today rootName RootPath.notFound =
      ⟨0, 0, [], some "Path not found"⟩ := rfl

/-! ### Claim C6 -/

/-- Claim C6: for an extension that is not a key of the table, the
generator fails with the unsupported-extension error, while `process_file`
silently skips the file: it returns not-modified and leaves the file
state untouched. -/
theorem unsupported_extension_error_and_skip (cfg : Config)
    (dry_run force : Bool) (today : String) (f : FileState)
    (h : is_supported_file f.suffix = false) :
    generate cfg f.suffix today = .error (.unsupportedExtension f.suffix) ∧
    process_file cfg dry_run force today f = (false, f) := by
  constructor
  · have hl : lookupStyle f.suffix = none := by
      cases hl : lookupStyle f.suffix with
      | none => rfl
      | some s => rw [is_supported_file, hl] at h; cases h
    simp [generate, hl]
  · exact process_file_skip_unsupported cfg dry_run force today f h

/-- Witness for C6 at the concrete extension `.bin`. -/
theorem unsupported_extension_error_and_skip_witness :
    generate cfgA fileBin.suffix "2025-01-01" =
      .error (.unsupportedExtension fileBin.suffix) ∧
    process_file cfgA false false "2025-01-01" fileBin = (false, fileBin) :=
  unsupported_extension_error_and_skip cfgA false false "2025-01-01" fileBin (by decide)

/-! ### Claim C10 -/

theorem supported_no_upper {s : String} (h : is_supported_file s = true) :
    s.data.all (fun c => !c.isUpper) = true := by
  unfold is_supported_file lookupStyle at h
  cases hf : COMMENT_STYLES.find? (fun p => p.1 == s) with
  | none => rw [hf] at h; cases h
  | some p =>
    have hpq : (p.1 == s) = true := by
      have := List.find?_some hf
      simpa using this
    have hps : p.1 = s := eq_of_beq hpq
    have hm : p ∈ COMMENT_STYLES := List.mem_of_find?_eq_some hf
    have hall : COMMENT_STYLES.all (fun q => q.1.data.all (fun c => !c.isUpper))
        = true := by decide
    have := List.all_eq_true.mp hall p hm
    rw [← hps]
    simpa using this

/-- Claim C10: extension lookup is exact and case-sensitive — `.py` is a
key but `.PY` and `.Py` are not; more generally any suffix containing an
uppercase letter is unsupported (every table key is lowercase), and an
unsupported suffix makes `process_file` return not-modified with the file
untouched (the decision precedes any read of the content). -/
theorem extension_lookup_case_sensitive :
    (is_supported_file ".py" = true ∧ is_supported_file ".PY" = false ∧
      is_supported_file ".Py" = false)
    ∧ (∀ s : String, s.data.any (fun c => c.isUpper) = true →
        is_supported_file s = false)
    ∧ (∀ (cfg : Config) (dry_run force : Bool) (today : String) (f : FileState),
        is_supported_file f.suffix = false →
        process_file cfg dry_run force today f = (false, f)) := by
  refine ⟨⟨by decide, by decide, by decide⟩, ?_, ?_⟩
  · intro s hup
    cases hsup : is_supported_file s with
    | false => rfl
    | true =>
      obtain ⟨c, hc, hcu⟩ := List.any_eq_true.mp hup
      have := List.all_eq_true.mp (supported_no_upper hsup) c hc
      rw [hcu] at this
      cases this
  · intro cfg dry_run force today f h
    exact process_file_skip_unsupported cfg dry_run force today f h

/-- Witness for C10 at the concrete suffix `.PY`. -/
theorem extension_lookup_case_sensitive_witness :
    is_supported_file ".PY" = false ∧
    process_file cfgA false false "2025-01-01" filePY = (false, filePY) :=
  ⟨extension_lookup_case_sensitive.1.2.1,
   extension_lookup_case_sensitive.2.2 cfgA false false "2025-01-01" filePY
     (by decide)⟩

/-! ### Claim C7 -/

/-- Counterexample to C7 as stated: on a supported, readable but
unwritable file, dry-run reports modified while the real run reports
not-modified (the write's `PermissionError` turns the result into a
skip), so the two decisions differ. -/
theorem dry_run_decision_counterexample :
    (process_file cfgA true false "2025-01-02" fileUnwritable).1 = true ∧
    (process_file cfgA false false "2025-01-02" fileUnwritable).1 = false := by
  decide

/-- Claim C7 (amended): `process_file` with `dry_run` performs no write —
the file state is returned unchanged — and, provided the file is
writable, returns the same modified/not-modified decision as the
identical invocation without `dry_run`. -/
theorem dry_run_frame_amended (cfg : Config) (force : Bool) (today : String)
    (f : FileState) (hw : f.writable = true) :
    (process_file cfg true force today f).2 = f ∧
    (process_file cfg true force today f).1 =
      (process_file cfg false force today f).1 := by
  cases h1 : is_supported_file f.suffix with
  | false => simp [process_file, h1]
  | true =>
    cases h2 : f.isFile with
    | false => simp [process_file, h1, h2]
    | true =>
      cases h3 : f.readable with
      | false => simp [process_file, h1, h2, h3]
      | true =>
        cases h4 : has_signature cfg.email f.lines && !force with
        | true => simp [process_file, h1, h2, h3, h4]
        | false =>
          cases h5 : generate cfg f.suffix today with
          | error e => simp [process_file, h1, h2, h3, h4, h5]
          | ok sig => simp [process_file, h1, h2, h3, h4, h5, hw]

/-- Witness for C7 (amended) on a writable file. -/
theorem dry_run_frame_amended_witness :
    (process_file cfgA true false "2025-01-02" filePlain).2 = filePlain ∧
    (process_file cfgA true false "2025-01-02" filePlain).1 =
      (process_file cfgA false false "2025-01-02" filePlain).1 :=
  dry_run_frame_amended cfgA false "2025-01-02" filePlain (by decide)

/-! ### Structure of the generated block; claim C5 -/

theorem process_file_skip_not_file (cfg : Config) (dry_run force : Bool)
    (today : String) (f : FileState) (h1 : is_supported_file f.suffix = true)
    (h2 : f.isFile = false) :
    process_file cfg dry_run force today f = (false, f) := by
  simp [process_file, h1, h2]

theorem process_file_skip_unreadable (cfg : Config) (dry_run force : Bool)
    (today : String) (f : FileState) (h1 : is_supported_file f.suffix = true)
    (h2 : f.isFile = true) (h3 : f.readable = false) :
    process_file cfg dry_run force today f = (false, f) := by
  simp [process_file, h1, h2, h3]

theorem process_file_skip_signed (cfg : Config) (dry_run force : Bool)
    (today : String) (f : FileState) (h1 : is_supported_file f.suffix = true)
    (h2 : f.isFile = true) (h3 : f.readable = true)
    (h4 : has_signature cfg.email f.lines = true) (h5 : force = false) :
    process_file cfg dry_run force today f = (false, f) := by
  simp [process_file, h1, h2, h3, h4, h5]

theorem any_take_append (P : String → Bool) (l : String) (hP : P l = true) :
    ∀ (pre suf : List String) (n : Nat), pre.length < n →
      ((pre ++ l :: suf).take n).any P = true := by
  intro pre
  induction pre with
  | nil =>
    intro suf n hn
    cases n with
    | zero => simp at hn
    | succ m => simp [List.take_succ_cons, hP]
  | cons a pre ih =>
    intro suf n hn
    cases n with
    | zero => simp at hn
    | succ m =>
      have hm : pre.length < m := by simpa using hn
      simp [List.take_succ_cons, ih suf m hm]

/-- If a line containing the email sits at index `< 20`, the processor's
already-signed test fires. -/
theorem has_signature_shape {email : String} (pre : List String)
    (eLine : String) (suf : List String)
    (hP : containsSubstr email eLine = true) (hlen : pre.length < 20) :
    has_signature email (pre ++ eLine :: suf) = true :=
  any_take_append _ _ hP pre suf 20 hlen

theorem optLine_length (label : String) (o : Option String) :
    (optLine label o).length ≤ 1 := by
  cases o <;> simp [optLine]

theorem infoPre_length (cfg : Config) : (infoPre cfg).length ≤ 3 := by
  have h1 := optLine_length "Title: " cfg.title
  have h2 := optLine_length "Website: " cfg.website
  simp [infoPre]
  omega

theorem infoPost_length (cfg : Config) (date : String) :
    (infoPost cfg date).length ≤ 2 := by
  have h1 := optLine_length "Upwork: " cfg.upwork
  simp [infoPost]
  omega

theorem string_append_assoc (a b c : String) : a ++ b ++ c = a ++ (b ++ c) := by
  apply congrArg String.mk
  simp [String.data_append]

/-- Every generated block, with its trailing empty line removed,
decomposes as `pre ++ emailLine :: suf` with `pre` shorter than 6 lines
and the email a substring of `emailLine`. -/
theorem sig_email_decomp {cfg : Config} {ext date : String} {sig : List String}
    (hg : generate cfg ext date = .ok sig) :
    ∃ pre eLine suf, sig.dropLast = pre ++ eLine :: suf ∧ pre.length ≤ 5 ∧
      containsSubstr cfg.email eLine = true := by
  have hcon : ∀ p : String, containsSubstr cfg.email (p ++ ("Email: " ++ cfg.email)) = true := by
    intro p
    rw [← string_append_assoc]
    exact containsSubstr_append_self _ _
  unfold generate at hg
  cases hl : lookupStyle ext with
  | none => rw [hl] at hg; cases hg
  | some s =>
    rw [hl] at hg
    rcases lookupStyle_cases hl with rfl | rfl | rfl | rfl
    · simp only [reduceIte] at hg
      cases hg
      refine ⟨("# " ++ separator) :: (infoPre cfg).map (fun l => "# " ++ l),
        "# " ++ ("Email: " ++ cfg.email),
        (infoPost cfg date).map (fun l => "# " ++ l) ++ ["# " ++ separator], ?_, ?_, ?_⟩
      · have hx : format_hash separator (signatureInfoLines cfg date) =
            (("# " ++ separator) :: ((infoPre cfg).map (fun l => "# " ++ l) ++
              ("# " ++ ("Email: " ++ cfg.email)) ::
                ((infoPost cfg date).map (fun l => "# " ++ l) ++ ["# " ++ separator])))
            ++ [""] := by
          simp [format_hash, signatureInfoLines]
        rw [hx, List.dropLast_concat]
        simp
      · have := infoPre_length cfg
        simp
        omega
      · exact hcon _
    · simp only [reduceIte] at hg
      cases hg
      refine ⟨("// " ++ separator) :: (infoPre cfg).map (fun l => "// " ++ l),
        "// " ++ ("Email: " ++ cfg.email),
        (infoPost cfg date).map (fun l => "// " ++ l) ++ ["// " ++ separator], ?_, ?_, ?_⟩
      · have hx : format_slash separator (signatureInfoLines cfg date) =
            (("// " ++ separator) :: ((infoPre cfg).map (fun l => "// " ++ l) ++
              ("// " ++ ("Email: " ++ cfg.email)) ::
                ((infoPost cfg date).map (fun l => "// " ++ l) ++ ["// " ++ separator])))
            ++ [""] := by
          simp [format_slash, signatureInfoLines]
        rw [hx, List.dropLast_concat]
        simp
      · have := infoPre_length cfg
        simp
        omega
      · exact hcon _
    · simp only [reduceIte] at hg
      cases hg
      refine ⟨"<!--" :: separator :: infoPre cfg, "Email: " ++ cfg.email,
        infoPost cfg date ++ [separator, "-->"], ?_, ?_, ?_⟩
      · have hx : format_html separator (signatureInfoLines cfg date) =
            ("<!--" :: separator :: (infoPre cfg ++
              ("Email: " ++ cfg.email) :: (infoPost cfg date ++ [separator, "-->"])))
            ++ [""] := by
          simp [format_html, signatureInfoLines]
        rw [hx, List.dropLast_concat]
        simp
      · have := infoPre_length cfg
        simp
        omega
      · simpa using hcon ""
    · simp only [reduceIte] at hg
      cases hg
      refine ⟨"/*" :: separator :: infoPre cfg, "Email: " ++ cfg.email,
        infoPost cfg date ++ [separator, "*/"], ?_, ?_, ?_⟩
      · have hx : format_css separator (signatureInfoLines cfg date) =
            ("/*" :: separator :: (infoPre cfg ++
              ("Email: " ++ cfg.email) :: (infoPost cfg date ++ [separator, "*/"])))
            ++ [""] := by
          simp [format_css, signatureInfoLines]
        rw [hx, List.dropLast_concat]
        simp
      · have := infoPre_length cfg
        simp
        omega
      · simpa using hcon ""

/-- Whatever `process_file` writes is detected as already signed: the
email line of the inserted block sits within the first 20 lines. -/
theorem has_signature_append_block (email : String) (pre : List String)
    (eLine : String) (suf r : List String)
    (hcon : containsSubstr email eLine = true) (hlen : pre.length < 20) :
    has_signature email ((pre ++ eLine :: suf) ++ r) = true := by
  have h : (pre ++ eLine :: suf) ++ r = pre ++ eLine :: (suf ++ r) := by simp
  rw [h]
  exact has_signature_shape _ _ _ hcon hlen

theorem has_signature_shebang_block (email l0 : String) (pre : List String)
    (eLine : String) (suf r : List String)
    (hcon : containsSubstr email eLine = true) (hlen : pre.length < 18) :
    has_signature email (([l0, ""] ++ (pre ++ eLine :: suf)) ++ r) = true := by
  have h : ([l0, ""] ++ (pre ++ eLine :: suf)) ++ r =
      (l0 :: "" :: pre) ++ eLine :: (suf ++ r) := by simp
  rw [h]
  exact has_signature_shape _ _ _ hcon (by simp; omega)

/-- Whatever `process_file` writes is detected as already signed: the
email line of the inserted block sits within the first 20 lines. -/
theorem has_signature_newContent {cfg : Config} {ext date : String}
    {sig : List String} (force : Bool) (lines : List String)
    (hg : generate cfg ext date = .ok sig) :
    has_signature cfg.email (newContent cfg force sig lines) = true := by
  obtain ⟨pre, eLine, suf, hsplit, hlen, hcon⟩ := sig_email_decomp hg
  unfold newContent
  cases hsb : startsShebang lines with
  | true =>
    simp only [hsb, if_true]
    rw [hsplit]
    exact has_signature_shebang_block _ _ _ _ _ _ hcon (by omega)
  | false =>
    simp only [hsb, Bool.false_eq_true, if_false]
    rw [hsplit]
    exact has_signature_append_block _ _ _ _ _ hcon (by omega)

/-- Claim C5: running `process_file` twice without `force` (and without
`dry_run`) makes the second run a no-op: it returns not-modified and
leaves the file exactly as the first run left it.  The detection is the
substring scan of the first 20 lines (`has_signature`), which the block
written by the first run always satisfies. -/
theorem idempotent_without_force (cfg : Config) (today1 today2 : String)
    (f : FileState) :
    process_file cfg false false today2 (process_file cfg false false today1 f).2 =
      (false, (process_file cfg false false today1 f).2) := by
  cases h1 : is_supported_file f.suffix with
  | false =>
    rw [process_file_skip_unsupported _ _ _ _ _ h1]
    exact process_file_skip_unsupported _ _ _ _ _ h1
  | true =>
    cases h2 : f.isFile with
    | false =>
      rw [process_file_skip_not_file _ _ _ _ _ h1 h2]
      exact process_file_skip_not_file _ _ _ _ _ h1 h2
    | true =>
      cases h3 : f.readable with
      | false =>
        rw [process_file_skip_unreadable _ _ _ _ _ h1 h2 h3]
        exact process_file_skip_unreadable _ _ _ _ _ h1 h2 h3
      | true =>
        cases h4 : has_signature cfg.email f.lines with
        | true =>
          rw [process_file_skip_signed _ _ _ _ _ h1 h2 h3 h4 rfl]
          exact process_file_skip_signed _ _ _ _ _ h1 h2 h3 h4 rfl
        | false =>
          obtain ⟨sig, hg⟩ := generate_ok_of_supported cfg today1 h1
          rw [process_file_run cfg false false today1 f sig h1 h2 h3
            (by simp [h4]) hg]
          cases h5 : f.writable with
          | false =>
            simp only [h5, Bool.not_false, if_true, if_false, Bool.false_eq_true]
            obtain ⟨sig2, hg2⟩ := generate_ok_of_supported cfg today2 h1
            rw [process_file_run cfg false false today2 f sig2 h1 h2 h3
              (by simp [h4]) hg2]
            simp [h5]
          | true =>
            simp only [h5, Bool.not_true, if_false, Bool.false_eq_true]
            have hsig2 : has_signature cfg.email
                (newContent cfg false sig f.lines) = true :=
              has_signature_newContent false f.lines hg
            exact process_file_skip_signed _ _ _ _ _ h1 h2 h3 hsig2 rfl

/-! ### Claim C4 -/

/-- Claim C4: on a supported, readable, writable file whose content begins
with an interpreter directive (`#!` first line) and which is not already
signed (neither the content nor the post-shebang remainder contains the
email in its first 20 lines, so no old-signature stripping interferes),
`process_file` reports modified and the new content is exactly the
preserved first line, a blank line, the signature block, and the
remainder of the original content — on line lists,
`[first, ""] ++ sig.dropLast ++ shebangRest`, which corresponds to the
string `shebang + '\n' + '\n'-join of sig + rest`.  In particular the
first line is unchanged. -/
theorem shebang_preservation (cfg : Config) (force : Bool) (today : String)
    (f : FileState) (sig : List String)
    (h1 : is_supported_file f.suffix = true) (h2 : f.isFile = true)
    (h3 : f.readable = true) (h4 : f.writable = true)
    (hsb : startsShebang f.lines = true)
    (hc : has_signature cfg.email f.lines = false)
    (hrest : has_signature cfg.email (shebangRest f.lines) = false)
    (hg : generate cfg f.suffix today = .ok sig) :
    process_file cfg false force today f =
      (true, { f with lines :=
        [f.lines.headD "", ""] ++ sig.dropLast ++ shebangRest f.lines }) ∧
    ([f.lines.headD "", ""] ++ sig.dropLast ++ shebangRest f.lines).headD "" =
      f.lines.headD "" := by
  constructor
  · rw [process_file_run cfg false force today f sig h1 h2 h3 (by simp [hc]) hg]
    simp only [h4, Bool.not_true, Bool.false_eq_true, if_false, reduceIte]
    have hnc : newContent cfg force sig f.lines =
        [f.lines.headD "", ""] ++ sig.dropLast ++ shebangRest f.lines := by
      simp [newContent, hsb, hrest]
    rw [hnc]
  · simp

/-- Witness for C4 on a concrete shebang file. -/
theorem shebang_preservation_witness :
    process_file cfgA false false "2025-01-01" fileShebang =
      (true, { fileShebang with lines :=
        ([fileShebang.lines.headD "", ""] ++
          (format_hash separator (signatureInfoLines cfgA "2025-01-01")).dropLast ++
          shebangRest fileShebang.lines) }) ∧
    ([fileShebang.lines.headD "", ""] ++
        (format_hash separator (signatureInfoLines cfgA "2025-01-01")).dropLast ++
        shebangRest fileShebang.lines).headD "" = fileShebang.lines.headD "" :=
  shebang_preservation cfgA false "2025-01-01" fileShebang _
    (by decide) (by decide) (by decide) (by decide) (by decide) (by decide)
    (by decide) rfl

/-! ### Claim C3 -/

theorem noAt_append {a b : String} (ha : '@' ∉ a.data) (hb : '@' ∉ b.data) :
    '@' ∉ (a ++ b).data := by
  rw [String.data_append]
  simp [ha, hb]

theorem noAt_separator : '@' ∉ separator.data := by
  intro h
  rw [separator] at h
  have := List.eq_of_mem_replicate h
  cases this

theorem infoPre_noAt (cfg : Config) (ha : noAtChar cfg.author = true)
    (ht : optNoAt cfg.title = true) (hw : optNoAt cfg.website = true) :
    ∀ l ∈ infoPre cfg, '@' ∉ l.data := by
  intro l hl
  simp only [infoPre, List.append_assoc, List.mem_append, List.mem_singleton] at hl
  rcases hl with hl | hl | hl
  · subst hl
    exact noAt_append (by decide) (not_mem_of_noAtChar ha)
  · cases hT : cfg.title with
    | none => rw [hT] at hl; cases hl
    | some t =>
      rw [hT] at hl
      simp only [optLine, List.mem_singleton] at hl
      subst hl
      rw [hT] at ht
      exact noAt_append (by decide) (not_mem_of_noAtChar ht)
  · cases hW : cfg.website with
    | none => rw [hW] at hl; cases hl
    | some w =>
      rw [hW] at hl
      simp only [optLine, List.mem_singleton] at hl
      subst hl
      rw [hW] at hw
      exact noAt_append (by decide) (not_mem_of_noAtChar hw)

theorem infoPost_noAt (cfg : Config) (date : String)
    (hu : optNoAt cfg.upwork = true) (hd : noAtChar date = true) :
    ∀ l ∈ infoPost cfg date, '@' ∉ l.data := by
  intro l hl
  simp only [infoPost, List.mem_append, List.mem_singleton] at hl
  rcases hl with hl | hl
  · cases hU : cfg.upwork with
    | none => rw [hU] at hl; cases hl
    | some u =>
      rw [hU] at hl
      simp only [optLine, List.mem_singleton] at hl
      subst hl
      rw [hU] at hu
      exact noAt_append (by decide) (not_mem_of_noAtChar hu)
  · subst hl
    exact noAt_append (by decide) (not_mem_of_noAtChar hd)

theorem countP_one_of (P : String → Bool) (pre suf : List String) (e : String)
    (hpre : ∀ l ∈ pre, P l = false) (hsuf : ∀ l ∈ suf, P l = false)
    (he : P e = true) : (pre ++ e :: suf).countP P = 1 := by
  rw [List.countP_append, List.countP_cons]
  have h1 : pre.countP P = 0 := by
    rw [List.countP_eq_zero]
    intro l hl
    simp [hpre l hl]
  have h2 : suf.countP P = 0 := by
    rw [List.countP_eq_zero]
    intro l hl
    simp [hsuf l hl]
  simp [h1, h2, he]

/-- Shared argument for the two line-prefixed styles (`hash`, `slash`). -/
theorem prefixed_sig_props (cfg : Config) (date cp : String)
    (hcp : '@' ∉ cp.data)
    (he : hasAtChar cfg.email = true) (ha : noAtChar cfg.author = true)
    (ht : optNoAt cfg.title = true) (hw : optNoAt cfg.website = true)
    (hu : optNoAt cfg.upwork = true) (hd : noAtChar date = true) :
    ((cp ++ separator) ::
        ((signatureInfoLines cfg date).map (fun l => cp ++ l) ++
          [cp ++ separator, ""])).countP
      (fun l => containsSubstr cfg.email l) = 1 ∧
    ((cp ++ separator) ::
        ((signatureInfoLines cfg date).map (fun l => cp ++ l) ++
          [cp ++ separator, ""])).getLast? = some "" ∧
    ((cp ++ separator) ::
        ((signatureInfoLines cfg date).map (fun l => cp ++ l) ++
          [cp ++ separator, ""])).dropLast.getLast? ≠ some "" := by
  have hsepline : '@' ∉ (cp ++ separator).data := noAt_append hcp noAt_separator
  have hPsep : containsSubstr cfg.email (cp ++ separator) = false :=
    containsSubstr_eq_false_of_at he hsepline
  have hshape : (cp ++ separator) ::
      ((signatureInfoLines cfg date).map (fun l => cp ++ l) ++ [cp ++ separator, ""]) =
      (((cp ++ separator) :: (infoPre cfg).map (fun l => cp ++ l)) ++
        (cp ++ ("Email: " ++ cfg.email)) ::
          ((infoPost cfg date).map (fun l => cp ++ l) ++ [cp ++ separator, ""])) := by
    simp [signatureInfoLines]
  refine ⟨?_, ?_, ?_⟩
  · rw [hshape]
    apply countP_one_of
    · intro l hl
      rcases List.mem_cons.mp hl with rfl | hl
      · exact hPsep
      · obtain ⟨x, hx, rfl⟩ := List.mem_map.mp hl
        exact containsSubstr_eq_false_of_at he
          (noAt_append hcp (infoPre_noAt cfg ha ht hw x hx))
    · intro l hl
      rcases List.mem_append.mp hl with hl | hl
      · obtain ⟨x, hx, rfl⟩ := List.mem_map.mp hl
        exact containsSubstr_eq_false_of_at he
          (noAt_append hcp (infoPost_noAt cfg date hu hd x hx))
      · rcases List.mem_cons.mp hl with rfl | hl
        · exact hPsep
        · rcases List.mem_singleton.mp hl with rfl
          exact containsSubstr_eq_false_of_at he (by decide)
    · rw [← string_append_assoc]
      exact containsSubstr_append_self _ _
  · have : (cp ++ separator) ::
        ((signatureInfoLines cfg date).map (fun l => cp ++ l) ++ [cp ++ separator, ""]) =
        ((cp ++ separator) ::
          ((signatureInfoLines cfg date).map (fun l => cp ++ l) ++ [cp ++ separator]))
          ++ [""] := by
      simp
    rw [this, List.getLast?_concat]
  · have : (cp ++ separator) ::
        ((signatureInfoLines cfg date).map (fun l => cp ++ l) ++ [cp ++ separator, ""]) =
        ((cp ++ separator) ::
          ((signatureInfoLines cfg date).map (fun l => cp ++ l) ++ [cp ++ separator]))
          ++ [""] := by
      simp
    rw [this, List.dropLast_concat]
    have : ((cp ++ separator) ::
        ((signatureInfoLines cfg date).map (fun l => cp ++ l) ++ [cp ++ separator])) =
        ((cp ++ separator) :: (signatureInfoLines cfg date).map (fun l => cp ++ l))
          ++ [cp ++ separator] := by
      simp
    rw [this, List.getLast?_concat]
    intro hcon
    have : (cp ++ separator) = "" := by
      injection hcon
    have h0 : (cp ++ separator).data = "".data := congrArg String.data this
    rw [String.data_append] at h0
    have : separator.data ≠ [] := by
      rw [separator]
      simp
    apply this
    cases (List.append_eq_nil).mp h0 with
    | intro h1 h2 => exact h2

/-- Shared argument for the two block styles (`html`, `css`). -/
theorem block_sig_props (cfg : Config) (date od cd : String)
    (hod : '@' ∉ od.data) (hcd : '@' ∉ cd.data) (hcdne : cd ≠ "")
    (he : hasAtChar cfg.email = true) (ha : noAtChar cfg.author = true)
    (ht : optNoAt cfg.title = true) (hw : optNoAt cfg.website = true)
    (hu : optNoAt cfg.upwork = true) (hd : noAtChar date = true) :
    (od :: separator ::
        (signatureInfoLines cfg date ++ [separator, cd, ""])).countP
      (fun l => containsSubstr cfg.email l) = 1 ∧
    (od :: separator ::
        (signatureInfoLines cfg date ++ [separator, cd, ""])).getLast? = some "" ∧
    (od :: separator ::
        (signatureInfoLines cfg date ++ [separator, cd, ""])).dropLast.getLast?
      ≠ some "" := by
  have hPsep : containsSubstr cfg.email separator = false :=
    containsSubstr_eq_false_of_at he noAt_separator
  have hshape : od :: separator ::
      (signatureInfoLines cfg date ++ [separator, cd, ""]) =
      ((od :: separator :: infoPre cfg) ++
        ("Email: " ++ cfg.email) :: (infoPost cfg date ++ [separator, cd, ""])) := by
    simp [signatureInfoLines]
  refine ⟨?_, ?_, ?_⟩
  · rw [hshape]
    apply countP_one_of
    · intro l hl
      rcases List.mem_cons.mp hl with rfl | hl
      · exact containsSubstr_eq_false_of_at he hod
      rcases List.mem_cons.mp hl with rfl | hl
      · exact hPsep
      · exact containsSubstr_eq_false_of_at he (infoPre_noAt cfg ha ht hw l hl)
    · intro l hl
      rcases List.mem_append.mp hl with hl | hl
      · exact containsSubstr_eq_false_of_at he (infoPost_noAt cfg date hu hd l hl)
      rcases List.mem_cons.mp hl with rfl | hl
      · exact hPsep
      rcases List.mem_cons.mp hl with rfl | hl
      · exact containsSubstr_eq_false_of_at he hcd
      · rcases List.mem_singleton.mp hl with rfl
        exact containsSubstr_eq_false_of_at he (by decide)
    · exact containsSubstr_append_self _ _
  · have : od :: separator :: (signatureInfoLines cfg date ++ [separator, cd, ""]) =
        (od :: separator :: (signatureInfoLines cfg date ++ [separator, cd])) ++ [""] := by
      simp
    rw [this, List.getLast?_concat]
  · have : od :: separator :: (signatureInfoLines cfg date ++ [separator, cd, ""]) =
        (od :: separator :: (signatureInfoLines cfg date ++ [separator, cd])) ++ [""] := by
      simp
    rw [this, List.dropLast_concat]
    have : od :: separator :: (signatureInfoLines cfg date ++ [separator, cd]) =
        (od :: separator :: (signatureInfoLines cfg date ++ [separator])) ++ [cd] := by
      simp
    rw [this, List.getLast?_concat]
    intro hcon
    apply hcdne
    injection hcon

/-- Counterexample to C3 as stated: for the configuration whose author
field equals the email string, the rendered `.py` block contains the
email in two distinct lines (`Author:` and `Email:`), not exactly one
occurrence. -/
theorem render_email_count_counterexample :
    generate cfgEmailInAuthor ".py" "2025-01-01" =
      .ok (format_hash separator (signatureInfoLines cfgEmailInAuthor "2025-01-01")) ∧
    (format_hash separator (signatureInfoLines cfgEmailInAuthor "2025-01-01")).countP
      (fun l => containsSubstr cfgEmailInAuthor.email l) = 2 :=
  ⟨rfl, by decide⟩

/-- Claim C3 (amended): for every supported extension and configuration
whose email contains `'@'` while author, title, website, upwork and the
date are `'@'`-free (so the email string cannot occur in any other
rendered line), the rendered block contains the configured email in
exactly one line, and it ends with exactly one trailing blank line (its
last line is empty, the one before is not) before the original content
would begin. -/
theorem render_email_once_amended (cfg : Config) (ext date : String)
    (sig : List String) (hg : generate cfg ext date = .ok sig)
    (he : hasAtChar cfg.email = true) (ha : noAtChar cfg.author = true)
    (ht : optNoAt cfg.title = true) (hw : optNoAt cfg.website = true)
    (hu : optNoAt cfg.upwork = true) (hd : noAtChar date = true) :
    sig.countP (fun l => containsSubstr cfg.email l) = 1 ∧
    sig.getLast? = some "" ∧ sig.dropLast.getLast? ≠ some "" := by
  unfold generate at hg
  cases hl : lookupStyle ext with
  | none => rw [hl] at hg; cases hg
  | some s =>
    rw [hl] at hg
    rcases lookupStyle_cases hl with rfl | rfl | rfl | rfl
    · simp only [reduceIte] at hg
      cases hg
      exact prefixed_sig_props cfg date "# " (by decide) he ha ht hw hu hd
    · simp only [reduceIte] at hg
      cases hg
      exact prefixed_sig_props cfg date "// " (by decide) he ha ht hw hu hd
    · simp only [reduceIte] at hg
      cases hg
      exact block_sig_props cfg date "<!--" "-->" (by decide) (by decide)
        (by decide) he ha ht hw hu hd
    · simp only [reduceIte] at hg
      cases hg
      exact block_sig_props cfg date "/*" "*/" (by decide) (by decide)
        (by decide) he ha ht hw hu hd

/-- Witness for C3 (amended) at a concrete clean configuration. -/
theorem render_email_once_amended_witness :
    (format_hash separator (signatureInfoLines cfgA "2025-01-01")).countP
      (fun l => containsSubstr cfgA.email l) = 1 ∧
    (format_hash separator (signatureInfoLines cfgA "2025-01-01")).getLast?
      = some "" ∧
    (format_hash separator (signatureInfoLines cfgA "2025-01-01")).dropLast.getLast?
      ≠ some "" :=
  render_email_once_amended cfgA ".py" "2025-01-01" _ rfl (by decide) (by decide)
    (by decide) (by decide) (by decide) (by decide)

/-! ### Claim C2 -/

theorem scanForEmail_eq (email : String) :
    ∀ (ls : List String) (fuel idx : Nat),
      scanForEmail email fuel idx ls =
        (firstIdxWhere (fun l => containsSubstr email l) (ls.take fuel)).map
          (· + idx) := by
  intro ls
  induction ls with
  | nil => intro fuel idx; cases fuel <;> simp [scanForEmail, firstIdxWhere]
  | cons l ls ih =>
    intro fuel idx
    cases fuel with
    | zero => simp [scanForEmail, firstIdxWhere]
    | succ m =>
      simp only [scanForEmail, List.take_succ_cons, firstIdxWhere]
      by_cases hP : containsSubstr email l = true
      · simp [hP]
      · simp only [hP, if_false]
        rw [ih m (idx + 1)]
        cases h : firstIdxWhere (fun l => containsSubstr email l) (ls.take m) with
        | none => simp [h]
        | some j =>
          simp [h]
          omega

theorem scanForMarker_eq :
    ∀ (ls : List String) (fuel idx : Nat),
      scanForMarker fuel idx ls =
        (firstIdxWhere isMarkerLine (ls.take fuel)).map (· + idx) := by
  intro ls
  induction ls with
  | nil => intro fuel idx; cases fuel <;> simp [scanForMarker, firstIdxWhere]
  | cons l ls ih =>
    intro fuel idx
    cases fuel with
    | zero => simp [scanForMarker, firstIdxWhere]
    | succ m =>
      simp only [scanForMarker, List.take_succ_cons, firstIdxWhere]
      by_cases hP : isMarkerLine l = true
      · simp [hP]
      · simp only [hP, if_false]
        rw [ih m (idx + 1)]
        cases h : firstIdxWhere isMarkerLine (ls.take m) with
        | none => simp [h]
        | some j =>
          simp [h]
          omega

/-- Counterexample to C2 as stated: with content `["", "x"]` (a file
beginning with a blank line) and an email found nowhere, the claim says
the removal is a no-op, but the routine still skips the leading blank
lines and returns `["x"]`. -/
theorem removal_noop_counterexample :
    (["", "x"].take 20).any (fun l => containsSubstr "a@b.c" l) = false ∧
    remove_old_signature "a@b.c" ["", "x"] = ["x"] ∧
    remove_old_signature "a@b.c" ["", "x"] ≠ ["", "x"] := by
  refine ⟨by decide, by decide, by decide⟩

/-- Claim C2 (amended): the removal routine equals, on every input, the
procedure described by the spec with two corrections: the marker window
is the email line itself plus up to 4 following lines
(`range(i, min(i+5, len))`), a marker being a line containing five
consecutive `'='`, or `-->`, or `*/`; and the skipping of blank lines
after the boundary applies unconditionally, so when no email (or no
marker) is found the boundary is the start but leading blank lines are
still removed — a no-op only for content not beginning with blank
lines. -/
theorem remove_old_signature_matches_spec (email : String) (lines : List String) :
    remove_old_signature email lines = removeOldSignatureSpec email lines := by
  unfold remove_old_signature removeOldSignatureSpec
  rw [scanForEmail_eq]
  cases h1 : firstIdxWhere (fun l => containsSubstr email l) (lines.take 20) with
  | none => simp [h1]
  | some i =>
    simp only [Option.map_some', Nat.add_zero]
    rw [scanForMarker_eq]
    cases h2 : firstIdxWhere isMarkerLine ((lines.drop i).take 5) with
    | none => simp [h2]
    | some k =>
      have harith : i + k + 1 = k + i + 1 := by omega
      simp [h2, harith]

/-! ### Claim C8 -/

theorem underSkip_file (p : List String) (st : FileState) :
    underSkip p (FTree.file st) = false := by
  cases p <;> simp [underSkip]

theorem find?_name_map (g : String × FTree → FTree) (nm : String) :
    ∀ l : List (String × FTree),
      (l.map (fun e => (e.1, g e))).find? (fun e => e.1 == nm) =
        (l.find? (fun e => e.1 == nm)).map (fun e => (e.1, g e)) := by
  intro l
  induction l with
  | nil => simp
  | cons a rest ih =>
    cases hEq : (a.1 == nm) with
    | true => simp [List.find?, hEq]
    | false => simp [List.find?, hEq, ih]

theorem processEntries_snd (cfg : Config) (dry_run force : Bool) (today : String) :
    ∀ (l : List (String × FTree)) (root : String),
      (processEntries cfg dry_run force today root l).2 =
        l.map (fun e => (e.1, transformEntry cfg dry_run force today root e)) := by
  intro l
  induction l with
  | nil => intro root; simp [processEntries]
  | cons e rest ih =>
    intro root
    obtain ⟨nm, t⟩ := e
    cases t with
    | file st =>
      by_cases hskip : nm ∈ SKIP_FILES
      · simp [processEntries, transformEntry, hskip, ih root]
      · simp [processEntries, transformEntry, hskip, ih root]
    | dir cs =>
      by_cases hskip : nm ∈ SKIP_DIRS
      · simp [processEntries, transformEntry, hskip, ih root]
      · simp [processEntries, transformEntry, hskip, ih root]

theorem processEntries_preserves_skipped (cfg : Config) (dry_run force : Bool)
    (today : String) :
    ∀ (p : List String) (l : List (String × FTree)) (root : String),
      underSkip p (FTree.dir l) = true →
      lookupTree p (FTree.dir (processEntries cfg dry_run force today root l).2) =
        lookupTree p (FTree.dir l) := by
  intro p
  induction p with
  | nil => intro l root h; simp [underSkip] at h
  | cons nm p ih =>
    intro l root h
    unfold underSkip at h
    cases hf : l.find? (fun e => e.1 == nm) with
    | none =>
      rw [hf] at h
      cases h
    | some e =>
      rw [hf] at h
      obtain ⟨nm₀, t₀⟩ := e
      have hnm : nm₀ = nm := by
        have := List.find?_some hf
        exact eq_of_beq (by simpa using this)
      subst hnm
      have hfmap : (l.map (fun e =>
          (e.1, transformEntry cfg dry_run force today root e))).find?
            (fun e => e.1 == nm₀) =
          some (nm₀, transformEntry cfg dry_run force today root (nm₀, t₀)) := by
        rw [find?_name_map]
        rw [hf]
        rfl
      rw [processEntries_snd]
      have hL : lookupTree (nm₀ :: p) (FTree.dir (l.map (fun e =>
          (e.1, transformEntry cfg dry_run force today root e)))) =
          lookupTree p (transformEntry cfg dry_run force today root (nm₀, t₀)) := by
        simp only [lookupTree, hfmap]
      have hR : lookupTree (nm₀ :: p) (FTree.dir l) = lookupTree p t₀ := by
        simp only [lookupTree, hf]
      rw [hL, hR]
      cases t₀ with
      | file st =>
        have h' : (SKIP_FILES.contains nm₀ || underSkip p (FTree.file st)) = true := h
        have hskip : SKIP_FILES.contains nm₀ = true := by
          rw [underSkip_file] at h'
          simpa using h'
        have hmem : nm₀ ∈ SKIP_FILES := by simpa using hskip
        simp [transformEntry, hmem]
      | dir cs =>
        have h' : (SKIP_DIRS.contains nm₀ || underSkip p (FTree.dir cs)) = true := h
        by_cases hskip : SKIP_DIRS.contains nm₀ = true
        · have hmem : nm₀ ∈ SKIP_DIRS := by simpa using hskip
          simp [transformEntry, hmem]
        · rw [Bool.not_eq_true] at hskip
          have hsub : underSkip p (FTree.dir cs) = true := by
            rw [hskip] at h'
            simpa using h'
          have hmem : nm₀ ∉ SKIP_DIRS := by simpa using hskip
          have ht : transformEntry cfg dry_run force today root (nm₀, FTree.dir cs) =
              FTree.dir (processEntries cfg dry_run force today
                (joinPath root nm₀) cs).2 := by
            simp [transformEntry, hmem]
          rw [ht]
          exact ih cs (joinPath root nm₀) hsub

theorem processEntries_stats (cfg : Config) (dry_run force : Bool)
    (today : String) :
    ∀ (N : Nat) (l : List (String × FTree)) (root : String), sizeOf l ≤ N →
      ((processEntries cfg dry_run force today root l).1.processed +
          (processEntries cfg dry_run force today root l).1.skipped =
        (walkCandidates root l).length) ∧
      ((processEntries cfg dry_run force today root l).1.files =
        (walkCandidates root l).filterMap
          (fun pc => if (process_file cfg dry_run force today pc.2).1
            then some pc.1 else none)) ∧
      ((processEntries cfg dry_run force today root l).1.processed =
        (processEntries cfg dry_run force today root l).1.files.length) := by
  intro N
  induction N with
  | zero =>
    intro l root h
    cases l with
    | nil => simp [processEntries, walkCandidates]
    | cons e rest => simp at h
  | succ n ih =>
    intro l root h
    match l with
    | [] => simp [processEntries, walkCandidates]
    | (nm, FTree.file st) :: rest =>
      have hr : sizeOf rest ≤ n := by
        simp at h
        omega
      obtain ⟨ih1, ih2, ih3⟩ := ih rest root hr
      by_cases hskip : nm ∈ SKIP_FILES
      · have hred : processEntries cfg dry_run force today root
            ((nm, FTree.file st) :: rest) =
            ((processEntries cfg dry_run force today root rest).1,
              (nm, FTree.file st) ::
                (processEntries cfg dry_run force today root rest).2) := by
          simp [processEntries, hskip]
        have hcand : walkCandidates root ((nm, FTree.file st) :: rest) =
            walkCandidates root rest := by
          simp [walkCandidates, hskip]
        rw [hred, hcand]
        exact ⟨ih1, ih2, ih3⟩
      · have hred : processEntries cfg dry_run force today root
            ((nm, FTree.file st) :: rest) =
            ((if (process_file cfg dry_run force today st).1
                then (⟨1, 0, [joinPath root nm]⟩ : Stats)
                else (⟨0, 1, []⟩ : Stats)).add
              (processEntries cfg dry_run force today root rest).1,
              (nm, FTree.file (process_file cfg dry_run force today st).2) ::
                (processEntries cfg dry_run force today root rest).2) := by
          simp [processEntries, hskip]
        have hcand : walkCandidates root ((nm, FTree.file st) :: rest) =
            (joinPath root nm, st) :: walkCandidates root rest := by
          simp [walkCandidates, hskip]
        rw [hred, hcand]
        cases hp : (process_file cfg dry_run force today st).1 with
        | true =>
          refine ⟨?_, ?_, ?_⟩
          · simp only [hp, if_true, Stats.add, List.length_cons]
            omega
          · simp only [hp, if_true, Stats.add, List.filterMap_cons,
              List.singleton_append, ih2]
          · simp only [hp, if_true, Stats.add, List.singleton_append,
              List.length_cons]
            omega
        | false =>
          refine ⟨?_, ?_, ?_⟩
          · simp only [hp, Bool.false_eq_true, if_false, Stats.add,
              List.length_cons]
            omega
          · simp only [hp, Bool.false_eq_true, if_false, Stats.add,
              List.filterMap_cons, List.nil_append, ih2]
          · simp only [hp, Bool.false_eq_true, if_false, Stats.add,
              List.nil_append]
            omega
    | (nm, FTree.dir cs) :: rest =>
      have hr : sizeOf rest ≤ n := by
        simp at h
        omega
      have hc : sizeOf cs ≤ n := by
        simp at h
        omega
      obtain ⟨ih1, ih2, ih3⟩ := ih rest root hr
      by_cases hskip : nm ∈ SKIP_DIRS
      · have hred : processEntries cfg dry_run force today root
            ((nm, FTree.dir cs) :: rest) =
            ((processEntries cfg dry_run force today root rest).1,
              (nm, FTree.dir cs) ::
                (processEntries cfg dry_run force today root rest).2) := by
          simp [processEntries, hskip]
        have hcand : walkCandidates root ((nm, FTree.dir cs) :: rest) =
            walkCandidates root rest := by
          simp [walkCandidates, hskip]
        rw [hred, hcand]
        exact ⟨ih1, ih2, ih3⟩
      · obtain ⟨jh1, jh2, jh3⟩ := ih cs (joinPath root nm) hc
        have hred : processEntries cfg dry_run force today root
            ((nm, FTree.dir cs) :: rest) =
            ((processEntries cfg dry_run force today (joinPath root nm) cs).1.add
              (processEntries cfg dry_run force today root rest).1,
              (nm, FTree.dir (processEntries cfg dry_run force today
                (joinPath root nm) cs).2) ::
                (processEntries cfg dry_run force today root rest).2) := by
          simp [processEntries, hskip]
        have hcand : walkCandidates root ((nm, FTree.dir cs) :: rest) =
            walkCandidates (joinPath root nm) cs ++ walkCandidates root rest := by
          simp [walkCandidates, hskip]
        rw [hred, hcand]
        refine ⟨?_, ?_, ?_⟩
        · simp only [Stats.add, List.length_append]
          omega
        · simp only [Stats.add, List.filterMap_append, ih2, jh2]
        · simp only [Stats.add, List.length_append]
          omega

/-- Claim C8: the walk of `process_directory` never descends into a
directory whose name is in `SKIP_DIRS` and never touches a file whose
name is in `SKIP_FILES` — any path passing through such an entry denotes
the same unchanged subtree after the run; every remaining file is a walk
candidate handed to `process_file` and counted in exactly one of
`processed`/`skipped` (their sum is the number of candidates, and
`processed` matches the number of recorded modified files), with its path
appended to `files` exactly when the call reports modified. -/
theorem directory_walk_skips (cfg : Config) (dry_run force : Bool)
    (today root : String) (l : List (String × FTree)) (p : List String) :
    ((processEntries cfg dry_run force today root l).1.processed +
        (processEntries cfg dry_run force today root l).1.skipped =
      (walkCandidates root l).length) ∧
    ((processEntries cfg dry_run force today root l).1.files =
      (walkCandidates root l).filterMap
        (fun pc => if (process_file cfg dry_run force today pc.2).1
          then some pc.1 else none)) ∧
    ((processEntries cfg dry_run force today root l).1.processed =
      (processEntries cfg dry_run force today root l).1.files.length) ∧
    (underSkip p (FTree.dir l) = true →
      lookupTree p (FTree.dir (processEntries cfg dry_run force today root l).2) =
        lookupTree p (FTree.dir l)) := by
  obtain ⟨h1, h2, h3⟩ :=
    processEntries_stats cfg dry_run force today (sizeOf l) l root (Nat.le_refl _)
  exact ⟨h1, h2, h3,
    fun h => processEntries_preserves_skipped cfg dry_run force today p l root h⟩

/-- Witness for C8 on a concrete tree containing `a.py`, `b.js`, a
`LICENSE` file and a `.git` subdirectory, with the skip path
`.git/config`. -/
theorem directory_walk_skips_witness :
    ((processEntries cfgA false false "2025-01-01" "." treeDemo).1.processed +
        (processEntries cfgA false false "2025-01-01" "." treeDemo).1.skipped =
      (walkCandidates "." treeDemo).length) ∧
    ((processEntries cfgA false false "2025-01-01" "." treeDemo).1.files =
      (walkCandidates "." treeDemo).filterMap
        (fun pc => if (process_file cfgA false false "2025-01-01" pc.2).1
          then some pc.1 else none)) ∧
    (lookupTree [".git", "config"]
        (FTree.dir (processEntries cfgA false false "2025-01-01" "." treeDemo).2) =
      lookupTree [".git", "config"] (FTree.dir treeDemo)) :=
  ⟨(directory_walk_skips cfgA false false "2025-01-01" "." treeDemo
      [".git", "config"]).1,
   (directory_walk_skips cfgA false false "2025-01-01" "." treeDemo
      [".git", "config"]).2.1,
   (directory_walk_skips cfgA false false "2025-01-01" "." treeDemo
      [".git", "config"]).2.2.2 (by decide)⟩

/-! ### Auxiliary lemmas for the `force` round trip (claim C1) -/

theorem firstIdxWhere_take_prefix (P : String → Bool) :
    ∀ (pre : List String) (e : String) (suf : List String) (n : Nat),
      (∀ l ∈ pre, P l = false) → P e = true → pre.length < n →
      firstIdxWhere P ((pre ++ e :: suf).take n) = some pre.length := by
  intro pre
  induction pre with
  | nil =>
    intro e suf n hpre hP hn
    cases n with
    | zero => simp at hn
    | succ m => simp [List.take_succ_cons, firstIdxWhere, hP]
  | cons a pre ih =>
    intro e suf n hpre hP hn
    cases n with
    | zero => simp at hn
    | succ m =>
      have hm : pre.length < m := by
        simp at hn
        omega
      have ha : P a = false := hpre a (List.mem_cons_self a pre)
      simp only [List.cons_append, List.take_succ_cons, firstIdxWhere, ha,
        Bool.false_eq_true, if_false, List.append_eq]
      rw [ih e suf m (fun l hl => hpre l (List.mem_cons_of_mem a hl)) hP hm]
      simp

/-- The removal routine on content of the shape
`pre ++ emailLine :: (mid ++ markerLine :: post)` — no email in `pre`,
no marker on the email line or in `mid`, `pre` inside the 20-line scan,
`mid` inside the 5-line window — cuts exactly at `post` (and then skips
its leading blank lines; an empty remainder denotes the empty file). -/
theorem remove_structured (email : String) (pre mid post : List String)
    (eLine mLine : String)
    (hpre : ∀ l ∈ pre, containsSubstr email l = false)
    (hE : containsSubstr email eLine = true)
    (hEm : isMarkerLine eLine = false)
    (hmid : ∀ l ∈ mid, isMarkerLine l = false)
    (hM : isMarkerLine mLine = true)
    (hlen : pre.length < 20) (hmidlen : mid.length ≤ 3) :
    remove_old_signature email (pre ++ eLine :: (mid ++ mLine :: post)) =
      (if (dropBlankLines post).isEmpty then [""] else dropBlankLines post) := by
  unfold remove_old_signature
  have h1 : firstIdxWhere (fun l => containsSubstr email l)
      ((pre ++ eLine :: (mid ++ mLine :: post)).take 20) = some pre.length :=
    firstIdxWhere_take_prefix _ pre eLine _ 20 hpre hE hlen
  simp only [h1]
  have hdrop : (pre ++ eLine :: (mid ++ mLine :: post)).drop pre.length =
      eLine :: (mid ++ mLine :: post) := List.drop_left pre _
  rw [hdrop]
  have h2 : firstIdxWhere isMarkerLine
      ((eLine :: (mid ++ mLine :: post)).take 5) = some (eLine :: mid).length := by
    have := firstIdxWhere_take_prefix isMarkerLine (eLine :: mid) mLine post 5
      (by
        intro l hl
        rcases List.mem_cons.mp hl with rfl | hl
        · exact hEm
        · exact hmid l hl)
      hM (by simp; omega)
    simpa using this
  simp only [h2]
  have hdrop2 : (pre ++ eLine :: (mid ++ mLine :: post)).drop
      (pre.length + (eLine :: mid).length + 1) = post := by
    have hsh : pre ++ eLine :: (mid ++ mLine :: post) =
        (pre ++ eLine :: (mid ++ [mLine])) ++ post := by simp
    rw [hsh]
    have hlen2 : (pre ++ eLine :: (mid ++ [mLine])).length =
        pre.length + (eLine :: mid).length + 1 := by
      simp
      omega
    rw [← hlen2, List.drop_left]
  rw [hdrop2]

theorem dropBlankLines_head_nonblank {l : List String}
    (hh : blankLine (l.headD "") = false) :
    dropBlankLines l = l ∧ l.isEmpty = false := by
  cases l with
  | nil => simp [blankLine] at hh
  | cons a t =>
    have ha : blankLine a = false := hh
    constructor
    · simp [dropBlankLines, ha]
    · simp

theorem markerCharFree_append {a b : String} (ha : markerCharFree a = true)
    (hb : markerCharFree b = true) : markerCharFree (a ++ b) = true := by
  unfold markerCharFree at *
  rw [String.data_append, List.all_append, ha, hb]
  rfl

theorem isMarkerLine_eq_false_of_free {s : String}
    (h : markerCharFree s = true) : isMarkerLine s = false := by
  have hch : ∀ c ∈ s.data, ¬(c = '=') ∧ ¬(c = '>') ∧ ¬(c = '*') := by
    intro c hc
    have := List.all_eq_true.mp h c hc
    simp at this
    obtain ⟨⟨h1, h2⟩, h3⟩ := this
    exact ⟨h1, h2, h3⟩
  have h1 : '=' ∉ s.data := fun hm => (hch '=' hm).1 rfl
  have h2 : '>' ∉ s.data := fun hm => (hch '>' hm).2.1 rfl
  have h3 : '*' ∉ s.data := fun hm => (hch '*' hm).2.2 rfl
  unfold isMarkerLine containsSubstr
  rw [occursIn_eq_false_of_not_mem (n := "=====".data) (by decide) h1,
    occursIn_eq_false_of_not_mem (n := "-->".data) (by decide) h2,
    occursIn_eq_false_of_not_mem (n := "*/".data) (by decide) h3]
  rfl

theorem infoPost_markerFree (cfg : Config) (date : String)
    (hum : optMarkerFree cfg.upwork = true) (hdm : markerCharFree date = true) :
    ∀ l ∈ infoPost cfg date, markerCharFree l = true := by
  intro l hl
  simp only [infoPost, List.mem_append, List.mem_singleton] at hl
  rcases hl with hl | hl
  · cases hU : cfg.upwork with
    | none => rw [hU] at hl; cases hl
    | some u =>
      rw [hU] at hl
      simp only [optLine, List.mem_singleton] at hl
      subst hl
      rw [hU] at hum
      exact markerCharFree_append (by decide) hum
  · subst hl
    exact markerCharFree_append (by decide) hdm

theorem containsSubstr_empty_of_at {email : String}
    (he : hasAtChar email = true) : containsSubstr email "" = false :=
  containsSubstr_eq_false_of_at he (by simp)

theorem mem_take_mono {α : Type} {l : List α} {a : α} {j k : Nat}
    (hjk : j ≤ k) (h : a ∈ l.take j) : a ∈ l.take k := by
  have h1 : l.take j = (l.take k).take j := by
    rw [List.take_take, Nat.min_eq_left hjk]
  rw [h1] at h
  exact List.take_subset _ _ h

theorem mem_take_tail {α : Type} {l : List α} {a : α} {j : Nat}
    (h : a ∈ l.tail.take j) : a ∈ l.take (j + 1) := by
  cases l with
  | nil => simp at h
  | cons b t => exact List.mem_cons_of_mem _ h

theorem countP_take_one (P : String → Bool) :
    ∀ (pre : List String) (e : String) (suf : List String) (n : Nat),
      (∀ l ∈ pre, P l = false) → P e = true →
      (∀ l ∈ suf.take (n - pre.length - 1), P l = false) →
      pre.length < n →
      ((pre ++ e :: suf).take n).countP P = 1 := by
  intro pre
  induction pre with
  | nil =>
    intro e suf n hpre hP hsuf hn
    cases n with
    | zero => simp at hn
    | succ m =>
      have hz : (suf.take m).countP P = 0 := by
        rw [List.countP_eq_zero]
        intro l hl
        have := hsuf l (by simpa using hl)
        simp [this]
      simp [List.take_succ_cons, List.countP_cons, hP, hz]
  | cons a pre ih =>
    intro e suf n hpre hP hsuf hn
    cases n with
    | zero => simp at hn
    | succ m =>
      have hm : pre.length < m := by
        simp at hn
        omega
      have ha : P a = false := hpre a (List.mem_cons_self a pre)
      have hsuf' : ∀ l ∈ suf.take (m - pre.length - 1), P l = false := by
        intro l hl
        apply hsuf l
        have : m - pre.length - 1 = (m + 1) - (a :: pre).length - 1 := by
          simp only [List.length_cons]
          omega
        rw [← this]
        exact hl
      simp only [List.cons_append, List.take_succ_cons, List.countP_cons, ha,
        List.append_eq]
      rw [ih e suf m (fun l hl => hpre l (List.mem_cons_of_mem a hl)) hP hsuf' hm]
      simp

theorem has_signature_all {email : String} {lines : List String}
    (hc : has_signature email lines = false) :
    ∀ l ∈ lines.take 20, containsSubstr email l = false := by
  intro l hl
  unfold has_signature at hc
  cases hP : containsSubstr email l with
  | false => rfl
  | true =>
    rw [List.any_eq_false] at hc
    exact absurd hP (by simpa using hc l hl)

theorem prefixedSig_dropLast (cp : String) (cfg : Config) (d : String) :
    (prefixedSig cp cfg d).dropLast =
      ((cp ++ separator) :: (infoPre cfg).map (fun l => cp ++ l)) ++
        (cp ++ ("Email: " ++ cfg.email)) ::
          ((infoPost cfg d).map (fun l => cp ++ l) ++ [cp ++ separator]) := by
  have hx : prefixedSig cp cfg d =
      (((cp ++ separator) :: (infoPre cfg).map (fun l => cp ++ l)) ++
        (cp ++ ("Email: " ++ cfg.email)) ::
          ((infoPost cfg d).map (fun l => cp ++ l) ++ [cp ++ separator])) ++ [""] := by
    simp [prefixedSig, signatureInfoLines]
  rw [hx, List.dropLast_concat]

theorem format_hash_eq_prefixedSig (cfg : Config) (d : String) :
    format_hash separator (signatureInfoLines cfg d) = prefixedSig "# " cfg d := rfl

theorem format_slash_eq_prefixedSig (cfg : Config) (d : String) :
    format_slash separator (signatureInfoLines cfg d) = prefixedSig "// " cfg d := rfl

theorem prefixed_pre_noEmail (cfg : Config) (cp : String) (hcpA : '@' ∉ cp.data)
    (he : hasAtChar cfg.email = true) (ha : noAtChar cfg.author = true)
    (ht : optNoAt cfg.title = true) (hw : optNoAt cfg.website = true) :
    ∀ l ∈ (cp ++ separator) :: (infoPre cfg).map (fun l => cp ++ l),
      containsSubstr cfg.email l = false := by
  intro l hl
  rcases List.mem_cons.mp hl with rfl | hl
  · exact containsSubstr_eq_false_of_at he (noAt_append hcpA noAt_separator)
  · obtain ⟨x, hx, rfl⟩ := List.mem_map.mp hl
    exact containsSubstr_eq_false_of_at he
      (noAt_append hcpA (infoPre_noAt cfg ha ht hw x hx))

theorem prefixed_mid_noMarker (cfg : Config) (cp d1 : String)
    (hcpM : markerCharFree cp = true) (hum : optMarkerFree cfg.upwork = true)
    (hd1m : markerCharFree d1 = true) :
    ∀ l ∈ (infoPost cfg d1).map (fun l => cp ++ l), isMarkerLine l = false := by
  intro l hl
  obtain ⟨x, hx, rfl⟩ := List.mem_map.mp hl
  exact isMarkerLine_eq_false_of_free
    (markerCharFree_append hcpM (infoPost_markerFree cfg d1 hum hd1m x hx))

theorem prefixed_eLine_contains (cfg : Config) (cp : String) :
    containsSubstr cfg.email (cp ++ ("Email: " ++ cfg.email)) = true := by
  rw [← string_append_assoc]
  exact containsSubstr_append_self _ _

theorem prefixed_eLine_noMarker (cfg : Config) (cp : String)
    (hcpM : markerCharFree cp = true) (hem : markerCharFree cfg.email = true) :
    isMarkerLine (cp ++ ("Email: " ++ cfg.email)) = false :=
  isMarkerLine_eq_false_of_free
    (markerCharFree_append hcpM (markerCharFree_append (by decide) hem))

/-- Removal of one freshly generated prefixed block (with up to two
email-free lines `pre0` before it) cuts exactly at the following
content. -/
theorem remove_sig_block (cfg : Config) (d1 cp : String) (post pre0 : List String)
    (hpre0 : ∀ l ∈ pre0, containsSubstr cfg.email l = false)
    (hpre0len : pre0.length ≤ 2)
    (hcpA : '@' ∉ cp.data) (hcpM : markerCharFree cp = true)
    (hMsep : isMarkerLine (cp ++ separator) = true)
    (he : hasAtChar cfg.email = true) (hem : markerCharFree cfg.email = true)
    (ha : noAtChar cfg.author = true) (ht : optNoAt cfg.title = true)
    (hw : optNoAt cfg.website = true) (hum : optMarkerFree cfg.upwork = true)
    (hd1m : markerCharFree d1 = true) :
    remove_old_signature cfg.email
        (pre0 ++ ((prefixedSig cp cfg d1).dropLast ++ post)) =
      (if (dropBlankLines post).isEmpty then [""] else dropBlankLines post) := by
  rw [prefixedSig_dropLast]
  have hre : pre0 ++ ((((cp ++ separator) :: (infoPre cfg).map (fun l => cp ++ l)) ++
      (cp ++ ("Email: " ++ cfg.email)) ::
        ((infoPost cfg d1).map (fun l => cp ++ l) ++ [cp ++ separator])) ++ post) =
      (pre0 ++ (cp ++ separator) :: (infoPre cfg).map (fun l => cp ++ l)) ++
        (cp ++ ("Email: " ++ cfg.email)) ::
          ((infoPost cfg d1).map (fun l => cp ++ l) ++ (cp ++ separator) :: post) := by
    simp
  rw [hre]
  apply remove_structured
  · intro l hl
    rcases List.mem_append.mp hl with hl | hl
    · exact hpre0 l hl
    · exact prefixed_pre_noEmail cfg cp hcpA he ha ht hw l hl
  · exact prefixed_eLine_contains cfg cp
  · exact prefixed_eLine_noMarker cfg cp hcpM hem
  · exact prefixed_mid_noMarker cfg cp d1 hcpM hum hd1m
  · exact hMsep
  · have := infoPre_length cfg
    simp
    omega
  · have := infoPost_length cfg d1
    simp
    omega

/-- Core of the amended round trip for the line-prefixed styles: on clean
input, force-re-signing the freshly signed content equals signing the
original content afresh. -/
theorem newContent_roundtrip_prefixed (cfg : Config) (d1 d2 : String)
    (lines : List String) (cp : String)
    (hcpA : '@' ∉ cp.data) (hcpM : markerCharFree cp = true)
    (hMsep : isMarkerLine (cp ++ separator) = true)
    (hShe : leadsWith "#!".data (cp ++ separator).data = false)
    (he : hasAtChar cfg.email = true) (hem : markerCharFree cfg.email = true)
    (ha : noAtChar cfg.author = true) (ht : optNoAt cfg.title = true)
    (hw : optNoAt cfg.website = true) (hum : optMarkerFree cfg.upwork = true)
    (hd1m : markerCharFree d1 = true)
    (hbody : blankLine ((if startsShebang lines then shebangRest lines
      else lines).headD "") = false) :
    newContent cfg true (prefixedSig cp cfg d2)
        (newContent cfg false (prefixedSig cp cfg d1) lines) =
      newContent cfg false (prefixedSig cp cfg d2) lines := by
  cases hsb : startsShebang lines with
  | true =>
    have hbody' : blankLine ((shebangRest lines).headD "") = false := by
      rw [hsb] at hbody
      simpa using hbody
    obtain ⟨hdb, hne⟩ := dropBlankLines_head_nonblank hbody'
    have h1 : newContent cfg false (prefixedSig cp cfg d1) lines =
        [lines.headD "", ""] ++ (prefixedSig cp cfg d1).dropLast ++
          shebangRest lines := by
      simp [newContent, hsb]
    rw [h1]
    have hhead : ([lines.headD "", ""] ++ (prefixedSig cp cfg d1).dropLast ++
        shebangRest lines).headD "" = lines.headD "" := rfl
    have hsb1 : startsShebang ([lines.headD "", ""] ++
        (prefixedSig cp cfg d1).dropLast ++ shebangRest lines) = true := by
      unfold startsShebang at hsb ⊢
      rw [hhead]
      exact hsb
    have hrest1 : shebangRest ([lines.headD "", ""] ++
        (prefixedSig cp cfg d1).dropLast ++ shebangRest lines) =
        "" :: ((prefixedSig cp cfg d1).dropLast ++ shebangRest lines) := by
      unfold shebangRest
      rw [if_neg (by simp)]
      rfl
    have hsig1 : has_signature cfg.email
        ("" :: ((prefixedSig cp cfg d1).dropLast ++ shebangRest lines)) = true := by
      rw [prefixedSig_dropLast]
      have hre : "" :: ((((cp ++ separator) ::
          (infoPre cfg).map (fun l => cp ++ l)) ++
          (cp ++ ("Email: " ++ cfg.email)) ::
            ((infoPost cfg d1).map (fun l => cp ++ l) ++ [cp ++ separator])) ++
          shebangRest lines) =
          ("" :: (cp ++ separator) :: (infoPre cfg).map (fun l => cp ++ l)) ++
            (cp ++ ("Email: " ++ cfg.email)) ::
              (((infoPost cfg d1).map (fun l => cp ++ l) ++ [cp ++ separator]) ++
                shebangRest lines) := by
        simp
      rw [hre]
      apply has_signature_shape _ _ _ (prefixed_eLine_contains cfg cp)
      have := infoPre_length cfg
      simp
      omega
    have hrem : remove_old_signature cfg.email
        ("" :: ((prefixedSig cp cfg d1).dropLast ++ shebangRest lines)) =
        shebangRest lines := by
      have hx := remove_sig_block cfg d1 cp (shebangRest lines) [""]
        (by
          intro l hl
          rcases List.mem_singleton.mp hl with rfl
          exact containsSubstr_empty_of_at he)
        (by simp) hcpA hcpM hMsep he hem ha ht hw hum hd1m
      rw [hdb, hne] at hx
      simpa using hx
    have hL : newContent cfg true (prefixedSig cp cfg d2)
        ([lines.headD "", ""] ++ (prefixedSig cp cfg d1).dropLast ++
          shebangRest lines) =
        [lines.headD "", ""] ++ (prefixedSig cp cfg d2).dropLast ++
          shebangRest lines := by
      unfold newContent
      rw [if_pos hsb1, hrest1]
      simp only [Bool.true_and, hsig1, if_true, reduceIte, hrem, hhead]
    have hR : newContent cfg false (prefixedSig cp cfg d2) lines =
        [lines.headD "", ""] ++ (prefixedSig cp cfg d2).dropLast ++
          shebangRest lines := by
      simp [newContent, hsb]
    rw [hL, hR]
  | false =>
    have hbody' : blankLine (lines.headD "") = false := by
      rw [hsb] at hbody
      simpa using hbody
    obtain ⟨hdb, hne⟩ := dropBlankLines_head_nonblank hbody'
    have h1 : newContent cfg false (prefixedSig cp cfg d1) lines =
        (prefixedSig cp cfg d1).dropLast ++ lines := by
      simp [newContent, hsb]
    rw [h1]
    have hhead0 : ((prefixedSig cp cfg d1).dropLast ++ lines).headD "" =
        cp ++ separator := by
      rw [prefixedSig_dropLast]
      rfl
    have hsb1 : startsShebang ((prefixedSig cp cfg d1).dropLast ++ lines) = false := by
      unfold startsShebang
      rw [hhead0]
      exact hShe
    have hsig1 : has_signature cfg.email
        ((prefixedSig cp cfg d1).dropLast ++ lines) = true := by
      rw [prefixedSig_dropLast]
      have hre : (((cp ++ separator) :: (infoPre cfg).map (fun l => cp ++ l)) ++
          (cp ++ ("Email: " ++ cfg.email)) ::
            ((infoPost cfg d1).map (fun l => cp ++ l) ++ [cp ++ separator])) ++
          lines =
          ((cp ++ separator) :: (infoPre cfg).map (fun l => cp ++ l)) ++
            (cp ++ ("Email: " ++ cfg.email)) ::
              (((infoPost cfg d1).map (fun l => cp ++ l) ++ [cp ++ separator]) ++
                lines) := by
        simp
      rw [hre]
      apply has_signature_shape _ _ _ (prefixed_eLine_contains cfg cp)
      have := infoPre_length cfg
      simp
      omega
    have hrem : remove_old_signature cfg.email
        ((prefixedSig cp cfg d1).dropLast ++ lines) = lines := by
      have hx := remove_sig_block cfg d1 cp lines []
        (by intro l hl; cases hl) (by simp) hcpA hcpM hMsep he hem ha ht hw
        hum hd1m
      rw [hdb, hne] at hx
      simpa using hx
    have hL : newContent cfg true (prefixedSig cp cfg d2)
        ((prefixedSig cp cfg d1).dropLast ++ lines) =
        (prefixedSig cp cfg d2).dropLast ++ lines := by
      unfold newContent
      rw [if_neg (by rw [hsb1]; simp)]
      simp only [Bool.true_and, hsig1, if_true, reduceIte, hrem]
    have hR : newContent cfg false (prefixedSig cp cfg d2) lines =
        (prefixedSig cp cfg d2).dropLast ++ lines := by
      simp [newContent, hsb]
    rw [hL, hR]

theorem suffix_take_noEmail (cfg : Config) (d2 cp : String)
    (tailpart : List String) (K : Nat)
    (hcpA : '@' ∉ cp.data) (he : hasAtChar cfg.email = true)
    (hu : optNoAt cfg.upwork = true) (hd2 : noAtChar d2 = true)
    (htail : ∀ l ∈ tailpart.take K, containsSubstr cfg.email l = false) :
    ∀ l ∈ ((infoPost cfg d2).map (fun l => cp ++ l) ++
        (cp ++ separator) :: tailpart).take K,
      containsSubstr cfg.email l = false := by
  intro l hl
  rw [List.take_append_eq_append_take] at hl
  rcases List.mem_append.mp hl with hl | hl
  · have hm : l ∈ (infoPost cfg d2).map (fun l => cp ++ l) :=
      List.take_subset _ _ hl
    obtain ⟨x, hx, rfl⟩ := List.mem_map.mp hm
    exact containsSubstr_eq_false_of_at he
      (noAt_append hcpA (infoPost_noAt cfg d2 hu hd2 x hx))
  · cases hK : K - ((infoPost cfg d2).map (fun l => cp ++ l)).length with
    | zero =>
      rw [hK] at hl
      simp at hl
    | succ m =>
      rw [hK, List.take_succ_cons] at hl
      rcases List.mem_cons.mp hl with rfl | hl
      · exact containsSubstr_eq_false_of_at he (noAt_append hcpA noAt_separator)
      · exact htail l (mem_take_mono (by omega) hl)

/-- The freshly signed content carries the email in exactly one of its
first 20 lines. -/
theorem newContent_countP_one (cfg : Config) (d2 : String) (lines : List String)
    (cp : String) (hcpA : '@' ∉ cp.data)
    (he : hasAtChar cfg.email = true) (ha : noAtChar cfg.author = true)
    (ht : optNoAt cfg.title = true) (hw : optNoAt cfg.website = true)
    (hu : optNoAt cfg.upwork = true) (hd2 : noAtChar d2 = true)
    (hc : has_signature cfg.email lines = false) :
    ((newContent cfg false (prefixedSig cp cfg d2) lines).take 20).countP
      (fun l => containsSubstr cfg.email l) = 1 := by
  have hl0 : containsSubstr cfg.email (lines.headD "") = false := by
    cases lines with
    | nil => exact containsSubstr_empty_of_at he
    | cons a t =>
      exact has_signature_all hc a (by simp [List.take_succ_cons])
  have hempty : containsSubstr cfg.email "" = false := containsSubstr_empty_of_at he
  have htailShe : ∀ (K : Nat), K ≤ 19 →
      ∀ l ∈ (shebangRest lines).take K, containsSubstr cfg.email l = false := by
    intro K hK l hl
    unfold shebangRest at hl
    by_cases hsl : lines.length ≤ 1
    · rw [if_pos hsl] at hl
      have := List.take_subset _ _ hl
      rcases List.mem_singleton.mp this with rfl
      exact hempty
    · rw [if_neg hsl] at hl
      exact has_signature_all hc l (mem_take_mono (by omega) (mem_take_tail hl))
  have htailPlain : ∀ (K : Nat), K ≤ 20 →
      ∀ l ∈ lines.take K, containsSubstr cfg.email l = false := by
    intro K hK l hl
    exact has_signature_all hc l (mem_take_mono hK hl)
  have hpreNE := prefixed_pre_noEmail cfg cp hcpA he ha ht hw
  have hinfoPreLen := infoPre_length cfg
  have hinfoPostLen := infoPost_length cfg d2
  cases hsb : startsShebang lines with
  | true =>
    have h1 : newContent cfg false (prefixedSig cp cfg d2) lines =
        [lines.headD "", ""] ++ (prefixedSig cp cfg d2).dropLast ++
          shebangRest lines := by
      simp [newContent, hsb]
    rw [h1, prefixedSig_dropLast]
    have hre : ([lines.headD "", ""] ++
        (((cp ++ separator) :: (infoPre cfg).map (fun l => cp ++ l)) ++
          (cp ++ ("Email: " ++ cfg.email)) ::
            ((infoPost cfg d2).map (fun l => cp ++ l) ++ [cp ++ separator]))) ++
            shebangRest lines =
        (lines.headD "" :: "" :: (cp ++ separator) ::
            (infoPre cfg).map (fun l => cp ++ l)) ++
          (cp ++ ("Email: " ++ cfg.email)) ::
            ((infoPost cfg d2).map (fun l => cp ++ l) ++
              (cp ++ separator) :: shebangRest lines) := by
      simp
    rw [hre]
    apply countP_take_one
    · intro l hl
      rcases List.mem_cons.mp hl with rfl | hl
      · exact hl0
      rcases List.mem_cons.mp hl with rfl | hl
      · exact hempty
      · exact hpreNE l hl
    · exact prefixed_eLine_contains cfg cp
    · intro l hl
      apply suffix_take_noEmail cfg d2 cp (shebangRest lines) _ hcpA he hu hd2
        (htailShe _ (by simp; omega)) l hl
    · simp
      omega
  | false =>
    have h1 : newContent cfg false (prefixedSig cp cfg d2) lines =
        (prefixedSig cp cfg d2).dropLast ++ lines := by
      simp [newContent, hsb]
    rw [h1, prefixedSig_dropLast]
    have hre : (((cp ++ separator) :: (infoPre cfg).map (fun l => cp ++ l)) ++
          (cp ++ ("Email: " ++ cfg.email)) ::
            ((infoPost cfg d2).map (fun l => cp ++ l) ++ [cp ++ separator])) ++
          lines =
        ((cp ++ separator) :: (infoPre cfg).map (fun l => cp ++ l)) ++
          (cp ++ ("Email: " ++ cfg.email)) ::
            ((infoPost cfg d2).map (fun l => cp ++ l) ++
              (cp ++ separator) :: lines) := by
      simp
    rw [hre]
    apply countP_take_one
    · exact hpreNE
    · exact prefixed_eLine_contains cfg cp
    · intro l hl
      apply suffix_take_noEmail cfg d2 cp lines _ hcpA he hu hd2
        (htailPlain _ (by omega)) l hl
    · simp
      omega

/-- Assembly of the amended round trip at the `process_file` level, for a
suffix whose generated block is `prefixedSig cp`. -/
theorem round_trip_force_core (cfg : Config) (d1 d2 : String) (f : FileState)
    (cp : String)
    (hgen : ∀ d, generate cfg f.suffix d = .ok (prefixedSig cp cfg d))
    (hsupp : is_supported_file f.suffix = true)
    (hcpA : '@' ∉ cp.data) (hcpM : markerCharFree cp = true)
    (hMsep : isMarkerLine (cp ++ separator) = true)
    (hShe : leadsWith "#!".data (cp ++ separator).data = false)
    (h2 : f.isFile = true) (h3 : f.readable = true) (h4 : f.writable = true)
    (he : hasAtChar cfg.email = true) (hem : markerCharFree cfg.email = true)
    (ha : noAtChar cfg.author = true) (ht : optNoAt cfg.title = true)
    (hw : optNoAt cfg.website = true) (hu : optNoAt cfg.upwork = true)
    (hum : optMarkerFree cfg.upwork = true)
    (hd1m : markerCharFree d1 = true) (hd2 : noAtChar d2 = true)
    (hc : has_signature cfg.email f.lines = false)
    (hbody : blankLine ((if startsShebang f.lines then shebangRest f.lines
      else f.lines).headD "") = false) :
    process_file cfg false true d2 (process_file cfg false false d1 f).2 =
      (true, (process_file cfg false false d2 f).2) ∧
    ((process_file cfg false true d2
        (process_file cfg false false d1 f).2).2.lines.take 20).countP
      (fun l => containsSubstr cfg.email l) = 1 := by
  have hcore := newContent_roundtrip_prefixed cfg d1 d2 f.lines cp hcpA hcpM
    hMsep hShe he hem ha ht hw hum hd1m hbody
  have hrun1 : process_file cfg false false d1 f =
      (true, { f with lines := newContent cfg false (prefixedSig cp cfg d1) f.lines }) := by
    rw [process_file_run cfg false false d1 f _ hsupp h2 h3 (by simp [hc]) (hgen d1)]
    simp [h4]
  have hrun2d : process_file cfg false false d2 f =
      (true, { f with lines := newContent cfg false (prefixedSig cp cfg d2) f.lines }) := by
    rw [process_file_run cfg false false d2 f _ hsupp h2 h3 (by simp [hc]) (hgen d2)]
    simp [h4]
  have hrunF : process_file cfg false true d2
      { f with lines := newContent cfg false (prefixedSig cp cfg d1) f.lines } =
      (true, { f with lines := (newContent cfg true (prefixedSig cp cfg d2)
        (newContent cfg false (prefixedSig cp cfg d1) f.lines)) }) := by
    rw [process_file_run cfg false true d2
      { f with lines := newContent cfg false (prefixedSig cp cfg d1) f.lines }
      (prefixedSig cp cfg d2) hsupp h2 h3 (by simp) (hgen d2)]
    simp [h4]
  rw [hrun1]
  constructor
  · show process_file cfg false true d2
        { f with lines := newContent cfg false (prefixedSig cp cfg d1) f.lines } =
      (true, (process_file cfg false false d2 f).2)
    rw [hrunF, hrun2d, hcore]
  · show ((process_file cfg false true d2
        { f with lines := newContent cfg false (prefixedSig cp cfg d1) f.lines
        }).2.lines.take 20).countP (fun l => containsSubstr cfg.email l) = 1
    rw [hrunF]
    show ((newContent cfg true (prefixedSig cp cfg d2)
        (newContent cfg false (prefixedSig cp cfg d1) f.lines)).take 20).countP
      (fun l => containsSubstr cfg.email l) = 1
    rw [hcore]
    exact newContent_countP_one cfg d2 f.lines cp hcpA he ha ht hw hu hd2 hc

/-- Counterexample to C1 as stated: for a supported HTML file, the
marker scan of the removal hits the inner `=` separator line before the
`-->` delimiter, so force-re-signing leaves a stray `-->` behind: the
final content contains `-->` twice and is not the fresh signature block
followed by the original body. -/
theorem round_trip_force_counterexample :
    ((process_file cfgA false true "2025-01-02"
        (process_file cfgA false false "2025-01-01" fileHtml).2).2.lines.count
      "-->" = 2) ∧
    ((process_file cfgA false true "2025-01-02"
        (process_file cfgA false false "2025-01-01" fileHtml).2).2.lines ≠
      (sigList cfgA ".html" "2025-01-02").dropLast ++ fileHtml.lines) := by
  refine ⟨by decide, by decide⟩

/-- Claim C1 (amended): for the line-prefixed comment styles (`hash` and
`slash` — the block styles `html`/`css` leave their closing delimiter
behind, see the counterexample), a clean configuration (email contains
`'@'` and none of the marker characters `'='`, `'>'`, `'*'`; author,
title, website, upwork and the new date are `'@'`-free; upwork and the
old date are marker-character-free), and a supported, readable, writable,
unsigned file whose body (after the optional shebang line) does not begin
with a blank line (the removal routine eats leading blank lines),
signing and then force-re-signing with a new date yields exactly the
result of signing the original file with the new date: one signature
block within the scanned 20 lines (the email occurs in exactly one of
them, and the `Created` line carries the new date), with the original
body content unchanged after it. -/
theorem round_trip_force_amended (cfg : Config) (d1 d2 : String) (f : FileState)
    (hstyle : lookupStyle f.suffix = some "hash" ∨
      lookupStyle f.suffix = some "slash")
    (h2 : f.isFile = true) (h3 : f.readable = true) (h4 : f.writable = true)
    (he : hasAtChar cfg.email = true) (hem : markerCharFree cfg.email = true)
    (ha : noAtChar cfg.author = true) (ht : optNoAt cfg.title = true)
    (hw : optNoAt cfg.website = true) (hu : optNoAt cfg.upwork = true)
    (hum : optMarkerFree cfg.upwork = true)
    (hd1m : markerCharFree d1 = true) (hd2 : noAtChar d2 = true)
    (hc : has_signature cfg.email f.lines = false)
    (hbody : blankLine ((if startsShebang f.lines then shebangRest f.lines
      else f.lines).headD "") = false) :
    process_file cfg false true d2 (process_file cfg false false d1 f).2 =
      (true, (process_file cfg false false d2 f).2) ∧
    ((process_file cfg false true d2
        (process_file cfg false false d1 f).2).2.lines.take 20).countP
      (fun l => containsSubstr cfg.email l) = 1 := by
  rcases hstyle with hst | hst
  · refine round_trip_force_core cfg d1 d2 f "# " ?_ ?_ (by decide) (by decide)
      (by decide) (by decide) h2 h3 h4 he hem ha ht hw hu hum hd1m hd2 hc hbody
    · intro d
      rw [generate_of_hash hst, format_hash_eq_prefixedSig]
    · rw [is_supported_file, hst]
      rfl
  · refine round_trip_force_core cfg d1 d2 f "// " ?_ ?_ (by decide) (by decide)
      (by decide) (by decide) h2 h3 h4 he hem ha ht hw hu hum hd1m hd2 hc hbody
    · intro d
      rw [generate_of_slash hst, format_slash_eq_prefixedSig]
    · rw [is_supported_file, hst]
      rfl

/-- Witness for C1 (amended) at a concrete Python file and clean
configuration. -/
theorem round_trip_force_amended_witness :
    (process_file cfgA false true "2025-01-02"
        (process_file cfgA false false "2025-01-01" filePlain).2 =
      (true, (process_file cfgA false false "2025-01-02" filePlain).2)) ∧
    ((process_file cfgA false true "2025-01-02"
        (process_file cfgA false false "2025-01-01" filePlain).2).2.lines.take
        20).countP (fun l => containsSubstr cfgA.email l) = 1 :=
  round_trip_force_amended cfgA "2025-01-01" "2025-01-02" filePlain
    (Or.inl (by decide)) (by decide) (by decide) (by decide) (by decide)
    (by decide) (by decide) (by decide) (by decide) (by decide) (by decide)
    (by decide) (by decide) (by decide) (by decide)

end SignatureTool
